import Mathlib

set_option maxHeartbeats 2000000

set_option maxRecDepth 100000

/-
Shallow embedding of the matching engine of the veridion-job-app repository
(the API server bundled in src/src/ingest/merge.ts, lines 102-741 of the
source pack).  JS strings are Lean strings (lists of characters).  Optional
string fields are modelled as plain strings with "" standing for `undefined`:
every use the code makes of such fields is a truthiness test or a `|| ''`
default, under which the two are indistinguishable.  JS numbers appearing in
scores are modelled as rationals; all score arithmetic in the source uses
halves only, which float addition computes exactly.
-/

/-- ASCII whitespace recognised by String.prototype.trim (space, tab, LF, VT, FF, CR).
JS also trims some exotic Unicode spaces; the engine only meets ASCII input. -/

def jsIsWS (c : Char) : Bool :=
  c == ' ' || c == '\t' || c == '\n' || c == '\x0b' || c == '\x0c' || c == '\r'

/-- Model of String.prototype.trim on the character list. -/
def jsTrimL (l : List Char) : List Char :=
  ((l.dropWhile jsIsWS).reverse.dropWhile jsIsWS).reverse

def jsTrim (s : String) : String := ⟨jsTrimL s.data⟩

/-- Upper-to-lower table of the ASCII letters. -/
def upperLowerTable : List (Char × Char) :=
  [('A', 'a'), ('B', 'b'), ('C', 'c'), ('D', 'd'), ('E', 'e'), ('F', 'f'),
   ('G', 'g'), ('H', 'h'), ('I', 'i'), ('J', 'j'), ('K', 'k'), ('L', 'l'),
   ('M', 'm'), ('N', 'n'), ('O', 'o'), ('P', 'p'), ('Q', 'q'), ('R', 'r'),
   ('S', 's'), ('T', 't'), ('U', 'u'), ('V', 'v'), ('W', 'w'), ('X', 'x'),
   ('Y', 'y'), ('Z', 'z')]

/-- ASCII lower-casing of one character, written as an explicit table so that
its interaction with the character classes used here stays provable. -/
def jsCharLower (c : Char) : Char :=
  ((upperLowerTable.find? (fun p => p.1 == c)).map (fun p => p.2)).getD c

/-- Model of String.prototype.toLowerCase, restricted to ASCII letters
(the engine only relies on ASCII lower-casing). -/
def jsLowerL (l : List Char) : List Char := l.map jsCharLower

def jsLower (s : String) : String := ⟨jsLowerL s.data⟩

/-- Model of s.replace(/\D/g, ''): keep the ASCII digits. -/
def jsDigitsL (l : List Char) : List Char := l.filter Char.isDigit

/-- digits from src: strips every non-digit character. -/
def digitsOf (s : String) : String := ⟨jsDigitsL s.data⟩

/-- last10 from src: d.slice(-10), the last ten digits (whole string when shorter). -/
def last10 (s : String) : String :=
  let d := jsDigitsL s.data
  ⟨d.drop (d.length - 10)⟩

/-- Does the (lower-cased) list start with the given lowercase pattern?
Models an anchored case-insensitive regex test. -/
def startsWithCIL (l pat : List Char) : Bool := pat.isPrefixOf (jsLowerL l)

/-- Drop a literal prefix when present; models s.replace(/^pat/, '') for a fixed
case-sensitive pattern. -/
def stripOnceL (pat l : List Char) : List Char :=
  if pat.isPrefixOf l then l.drop pat.length else l

/-- Does pat occur anywhere in l?  Models a non-anchored fixed-pattern regex test. -/
def occursL (pat : List Char) : List Char → Bool
  | [] => pat.isEmpty
  | c :: cs => pat.isPrefixOf (c :: cs) || occursL pat cs

/-- Replace the first (leftmost) case-insensitive occurrence of the lowercase
pattern pat by repl; models s.replace(/pat/i, repl) for a fixed pattern. -/
def replaceFirstCIL (pat repl : List Char) : List Char → List Char
  | [] => []
  | c :: cs =>
    if pat.isPrefixOf (jsLowerL (c :: cs)) then repl ++ (c :: cs).drop pat.length
    else c :: replaceFirstCIL pat repl cs

/-- Hostname and pathname of a parsed URL; the only two members the engine reads. -/
structure JsUrl where
  hostname : String
  pathname : String
deriving DecidableEq, Repr

/-- Characters that make WHATWG host parsing fail (forbidden host code points,
plus controls and the percent sign: percent-encoded and IDNA hosts are out of
scope of this model and treated as parse failures). -/
def forbiddenHostChar (c : Char) : Bool :=
  c.toNat ≤ 32 || c == '#' || c == '/' || c == ':' || c == '<' || c == '>' ||
  c == '?' || c == '@' || c == '[' || c == '\\' || c == ']' || c == '^' ||
  c == '|' || c == '%' || c.toNat == 127

/-- Characters ending the authority component of a special-scheme URL. -/
def authTermChar (c : Char) : Bool := c == '/' || c == '\\' || c == '?' || c == '#'

/-- Suffix after the last at-sign (the whole list when there is none); WHATWG
splits userinfo from the host at the last at-sign of the authority. -/
def afterLastAmp (l : List Char) : List Char :=
  (l.reverse.takeWhile (fun c => c != '@')).reverse

/-- Model of `new URL(t)` for http/https inputs, keeping the two members the
engine reads.  Simplifications (documented, all on inputs the engine never
produces for the properties proved here): non-http(s) schemes, scheme-relative
leniency (`https:x`), IPv6 hosts, IDNA/percent-decoding, dot-segment and
percent-encoding normalisation of the path, and tab/newline stripping are not
modelled; the first four surface as parse failure, which the callers turn into
their catch-branch fallback. -/
def parseHttpUrlL (t : List Char) : Option JsUrl :=
  let rest? : Option (List Char) :=
    if startsWithCIL t "https://".data then some (t.drop 8)
    else if startsWithCIL t "http://".data then some (t.drop 7)
    else none
  match rest? with
  | none => none
  | some rest =>
    let auth := rest.takeWhile (fun c => !(authTermChar c))
    let afterAuth := rest.dropWhile (fun c => !(authTermChar c))
    let hp := afterLastAmp auth
    let host := hp.takeWhile (fun c => c != ':')
    let port := (hp.dropWhile (fun c => c != ':')).drop 1
    if host.isEmpty then none
    else if host.any forbiddenHostChar then none
    else if !(port.all Char.isDigit) then none
    else
      let path := (afterAuth.takeWhile (fun c => c != '?' && c != '#')).map
        (fun c => if c == '\\' then '/' else c)
      some ⟨⟨jsLowerL host⟩, ⟨path⟩⟩

/-- preSanitizeUrl from src: trims, repairs duplicated schemes
(https://https//example.com and friends) and missing scheme colons. -/
def preSanitizeUrlL (u : List Char) : List Char :=
  let s := jsTrimL u
  -- s.replace(/^https?:\/\/https?:\/\//i, '') prefixed with 'https://'
  let s :=
    if startsWithCIL s "https://https://".data then "https://".data ++ s.drop 16
    else if startsWithCIL s "https://http://".data then "https://".data ++ s.drop 15
    else if startsWithCIL s "http://https://".data then "https://".data ++ s.drop 15
    else if startsWithCIL s "http://http://".data then "https://".data ++ s.drop 14
    else s
  -- s.replace(/:\/\/https\/\//i, '://') and the http variant
  let s := replaceFirstCIL "://https//".data "://".data s
  let s := replaceFirstCIL "://http//".data "://".data s
  -- s.replace(/^https\/\//i, 'https://') and the http variant
  let s := if startsWithCIL s "https//".data then "https://".data ++ s.drop 7 else s
  let s := if startsWithCIL s "http//".data then "http://".data ++ s.drop 6 else s
  s

def preSanitizeUrl (u : String) : String := ⟨preSanitizeUrlL u.data⟩

/-- Drop an anchored ^https?:\/\/ prefix (on an already lower-cased string). -/
def stripHttpPreL (l : List Char) : List Char :=
  if "https://".data.isPrefixOf l then l.drop 8
  else if "http://".data.isPrefixOf l then l.drop 7
  else l

/-- canonicalUrl from src: repair, parse, lower-case the host, strip one leading
www., return host alone for an empty/root path, else host ++ path without one
trailing slash; on parse failure fall back to string cleanup of the input. -/
def canonicalUrlL (u : List Char) : List Char :=
  let fixed := preSanitizeUrlL u
  let t := if occursL "://".data fixed then fixed else "https://".data ++ fixed
  match parseHttpUrlL t with
  | some url =>
    let host := stripOnceL "www.".data (jsLowerL url.hostname.data)
    let pathname := if url.pathname.data.isEmpty then "/".data else url.pathname.data
    if pathname = "/".data then host
    else if pathname.getLast? = some '/' then host ++ pathname.dropLast
    else host ++ pathname
  | none =>
    let s := jsLowerL u
    let s := stripHttpPreL s
    let s := stripOnceL "www.".data s
    let s := stripOnceL "https//".data s
    let s := stripOnceL "http//".data s
    if s.getLast? = some '/' then s.dropLast else s

def canonicalUrl (u : String) : String := ⟨canonicalUrlL u.data⟩

/-- Split on a single separator character, keeping empty pieces, as
String.prototype.split does for a one-character separator. -/
def splitOnCharL (sep : Char) : List Char → List (List Char)
  | [] => [[]]
  | c :: cs =>
    let r := splitOnCharL sep cs
    if c == sep then [] :: r
    else
      match r with
      | h :: t => (c :: h) :: t
      | [] => [[c]]

/-- Collapse every run of slashes to a single slash; models replace(/\/+/g, '/'). -/
def collapseSlashesL : List Char → List Char
  | [] => []
  | [c] => [c]
  | a :: b :: cs =>
    if a == '/' && b == '/' then collapseSlashesL (b :: cs)
    else a :: collapseSlashesL (b :: cs)

/-- extractHost from src (getHost alias): sanitized parse returning the
lower-cased host without a leading www.; string-cleanup fallback on failure. -/
def extractHostL (u : List Char) : List Char :=
  let fixed := preSanitizeUrlL u
  let t := if occursL "://".data fixed then fixed else "https://".data ++ fixed
  match parseHttpUrlL t with
  | some url => stripOnceL "www.".data (jsLowerL url.hostname.data)
  | none =>
    (stripOnceL "www.".data (stripHttpPreL (jsLowerL u))).takeWhile (fun c => c != '/')

def extractHost (u : String) : String := ⟨extractHostL u.data⟩

/-- canonicalFacebook from src: parse (no preSanitize here), normalise
m./www./fb.com host variants to facebook.com, keep the first path segment as the
page handle; non-facebook hosts fall back to canonicalUrl, parse failures to
string cleanup. -/
def canonicalFacebookL (u : List Char) : List Char :=
  let t := if occursL "://".data u then u else "https://".data ++ u
  match parseHttpUrlL t with
  | some url =>
    let host := stripOnceL "m.".data (jsLowerL url.hostname.data)
    let host := stripOnceL "www.".data host
    let host := if host = "fb.com".data then "facebook.com".data else host
    if host ≠ "facebook.com".data then canonicalUrlL u
    else
      let seg :=
        ((splitOnCharL '/' (collapseSlashesL url.pathname.data)).filter
          (fun x => !x.isEmpty)).headD []
      "facebook.com/".data ++ seg
  | none =>
    let s := jsLowerL u
    let s := stripHttpPreL s
    let s := stripOnceL "www.".data s
    let s := stripOnceL "m.".data s
    let s := if "fb.com".data.isPrefixOf s then "facebook.com".data ++ s.drop 6 else s
    if s.getLast? = some '/' then s.dropLast else s

def canonicalFacebook (u : String) : String := ⟨canonicalFacebookL u.data⟩

/-- normalizeText from src: lower-case then trim. -/
def normalizeText (s : String) : String := jsTrim (jsLower s)

/-
Rational arithmetic.  Mathlib marks Rat.add, Rat.sub, Rat.mul, Rat.inv and
Rat.ofScientific irreducible, which would keep concrete score computations
from evaluating inside decidability checks.  The embedding therefore computes
with the following definitionally-transparent equivalents (each proved equal
to the standard operation), and literal score constants are written with
mkRat.  JS numbers on the score path are binary fractions with small
denominators, which float arithmetic handles exactly, so exact rational
arithmetic is a faithful model.
-/

def qadd (a b : ℚ) : ℚ := mkRat (a.num * b.den + b.num * a.den) (a.den * b.den)

def qsub (a b : ℚ) : ℚ := mkRat (a.num * b.den - b.num * a.den) (a.den * b.den)

def qmul (a b : ℚ) : ℚ := mkRat (a.num * b.num) (a.den * b.den)

def qdiv (a b : ℚ) : ℚ := Rat.divInt (a.num * b.den) (a.den * b.num)

/-- Sequential accumulation `score += ...` of the source scorers. -/
def qsum (l : List ℚ) : ℚ := l.foldl qadd 0

/-- Stop-word set of legal-entity suffixes and connectives from src. -/
def STOP : List String :=
  ["inc", "inc.", "co", "co.", "llc", "ltd", "ltd.", "pty", "pty.", "plc",
   "corp", "corp.", "company", "companies", "gmbh", "srl", "sa", "bv", "nv",
   "llp", "pc", "p.c.", "lp", "pllc", "pte", "ag", "usa", "us", "the", "and", "&"]

def isLowerAlnum (c : Char) : Bool := ('a' ≤ c && c ≤ 'z') || ('0' ≤ c && c ≤ '9')

/-- Shared tokenising pipeline of nameTokens and domainTokens from src:
toLowerCase, replace non-alphanumerics by spaces, split, trim, drop short and
stop-word tokens.  The source replaces each run of non-alphanumerics by one
space; this model replaces each character, which only creates extra empty
pieces that the length filter removes, so the token list is identical. -/
def tokenizePieces (s : String) : List String :=
  let mapped := (jsLowerL s.data).map (fun c => if isLowerAlnum c then c else ' ')
  ((splitOnCharL ' ' mapped).map (fun t => (⟨jsTrimL t⟩ : String))).filter
    (fun t => decide (1 < t.length ∧ t ∉ STOP))

/-- nameTokens from src. -/
def nameTokens (s : String) : List String := tokenizePieces s

def COMMON_TLDS : List String :=
  ["com", "org", "net", "io", "co", "us", "uk", "ca", "de", "fr", "au", "nz",
   "in", "info", "biz", "edu", "gov", "me"]

/-- domainTokens from src: drop a known TLD, re-join, tokenize like a name. -/
def domainTokens (host : String) : List String :=
  let parts := splitOnCharL '.' host.data
  let parts :=
    if 1 < parts.length ∧ (⟨parts.getLastD []⟩ : String) ∈ COMMON_TLDS then parts.dropLast
    else parts
  tokenizePieces ⟨List.intercalate ".".data parts⟩

/-- Deduplication keeping first occurrences; models iteration over `new Set(xs)`. -/
def dedupKeepFirstAux (seen : List String) : List String → List String
  | [] => []
  | x :: xs =>
    if seen.contains x then dedupKeepFirstAux seen xs
    else x :: dedupKeepFirstAux (x :: seen) xs

def dedupKeepFirst (l : List String) : List String := dedupKeepFirstAux [] l

/-- jaccard from src: |A ∩ B| / |A ∪ B| over the two token sets, 0 when either
list is empty. -/
def jaccard (a b : List String) : ℚ :=
  if a.isEmpty ∨ b.isEmpty then 0
  else
    let A := dedupKeepFirst a
    let B := dedupKeepFirst b
    let inter := (A.filter (fun x => B.contains x)).length
    let union := A.length + B.length - inter
    qdiv (inter : ℚ) (union : ℚ)

/-- Inner loop of one Levenshtein DP row: cur is dp at the previous column of
this row, the third argument walks dp of the previous row (pd, pu, ...). -/
def levRowGo (ai : Char) : Nat → List Char → List Nat → List Nat
  | cur, bj :: bs, pd :: pu :: rest =>
    let cost := if ai == bj then 0 else 1
    let v := min (pu + 1) (min (cur + 1) (pd + cost))
    v :: levRowGo ai v bs (pu :: rest)
  | _, _, _ => []

/-- One row of the Levenshtein DP table of the source (dp[i][0] = i). -/
def levRow (bs : List Char) (prev : List Nat) (ai : Char) : List Nat :=
  match prev with
  | [] => []
  | p0 :: _ => (p0 + 1) :: levRowGo ai (p0 + 1) bs prev

/-- Levenshtein distance via the same DP table the source builds. -/
def levDistL (a b : List Char) : Nat :=
  (a.foldl (levRow b) (List.range (b.length + 1))).getLastD 0

/-- levenshteinRatio from src: 1 - dist/max(len), and 1 when both strings are
empty (the maxLen-zero guard of the source is the same case). -/
def levenshteinSim (a b : String) : ℚ :=
  let m := a.length
  let n := b.length
  if m = 0 ∧ n = 0 then 1
  else qsub 1 (qdiv (levDistL a.data b.data : ℚ) ((max m n : ℕ) : ℚ))

/-- Threshold chain for the name-token Jaccard signal (inline in the source
scorers, factored here verbatim; mkRat a b writes the decimal constant a/b). -/
def nameJBucket (j : ℚ) : ℚ :=
  if mkRat 4 5 ≤ j then 2 else if mkRat 1 2 ≤ j then mkRat 3 2
  else if mkRat 3 10 ≤ j then 1 else if mkRat 1 4 ≤ j then mkRat 1 2 else 0

/-- Threshold chain for the Levenshtein-ratio name signal. -/
def levBucket (l : ℚ) : ℚ :=
  if mkRat 9 10 ≤ l then mkRat 3 2 else if mkRat 4 5 ≤ l then 1 else 0

/-- Threshold chain for the domain-token Jaccard signal. -/
def domainJBucket (j : ℚ) : ℚ :=
  if mkRat 4 5 ≤ j then 2 else if mkRat 3 5 ≤ j then mkRat 3 2
  else if mkRat 2 5 ≤ j then 1 else if mkRat 1 4 ≤ j then mkRat 1 2 else 0

/-- Clean-code aliases from the bottom of the source file. -/
def normalizeString (s : String) : String := normalizeText s

def lastTenDigits (s : String) : String := last10 s

def tokenizeName (s : String) : List String := nameTokens s

def tokenizeDomain (host : String) : List String := domainTokens host

def getHost (u : String) : String := extractHost u

def jaccardSimilarity (a b : List String) : ℚ := jaccard a b

/-- CompanyProfile: website, optional name, phone list, social.facebook list,
optional address.  Only the facebook entry of `social` is ever read by the
engine, so the mapping is flattened to that list. -/
structure Profile where
  website : String := ""
  name : String := ""
  phones : List String := []
  facebook : List String := []
  address : String := ""
deriving DecidableEq, Repr, Inhabited

/-- AugProfile: the augmented record built per profile at catalog load.  The
source stores phone keys and facebook handles in JS Sets; membership is all
that is ever used, so lists (with the same Boolean filter) model them. -/
structure AugProfile where
  idx : Nat
  canonSite : String
  host : String
  domainTokens : List String
  nameNorm : String
  nameTokens : List String
  last10Phones : List String
  fbHandles : List String
  base : Profile
deriving DecidableEq, Repr

/-- Feature builder from loadIndexFrom in src (lines 152-166): the augmented
record for profile p at catalog position i. -/
def augmentProfile (i : Nat) (p : Profile) : AugProfile :=
  let canonSite := canonicalUrl p.website
  let host := getHost p.website
  let nameNorm := if p.name ≠ "" then normalizeString p.name else ""
  { idx := i
    canonSite := canonSite
    host := host
    domainTokens := if host ≠ "" then tokenizeDomain host else []
    nameNorm := nameNorm
    nameTokens := if nameNorm ≠ "" then tokenizeName nameNorm else []
    last10Phones := (p.phones.map lastTenDigits).filter (fun k => k != "")
    fbHandles := (p.facebook.map canonicalFacebook).filter (fun k => k != "")
    base := p }

/-- Scorer input of scoreMatch: a Partial CompanyProfile; fbDirect models the
untyped `(input as any).facebook` escape hatch. -/
structure ScoreInput where
  website : String := ""
  name : String := ""
  phones : List String := []
  fbList : List String := []
  fbDirect : String := ""
deriving DecidableEq, Repr

/-- JS `a || b` on strings. -/
def strOr (a b : String) : String := if a ≠ "" then a else b

/-- scoreMatch from src (lines 183-238), the exported reference scorer.  Note
`candidate._nameTokens || tokenizeName(b)` in the source always takes the left
branch, an array being truthy even when empty. -/
def scoreMatch (input : ScoreInput) (candidate : AugProfile) : ℚ :=
  qsum
    [if input.website ≠ "" then
       let wantCanon := canonicalUrl input.website
       if wantCanon ≠ "" ∧ wantCanon = candidate.canonSite then 5 else 0
     else 0,
     if input.name ≠ "" ∧ candidate.base.name ≠ "" then
       let a := normalizeString input.name
       let b := strOr candidate.nameNorm (normalizeString candidate.base.name)
       if a = b then 3
       else
         qadd (nameJBucket (jaccardSimilarity (tokenizeName a) candidate.nameTokens))
           (levBucket (levenshteinSim a b))
     else 0,
     if input.website ≠ "" then
       let aHost := getHost input.website
       if aHost ≠ "" then
         if ¬ candidate.domainTokens.isEmpty then
           domainJBucket (jaccardSimilarity (tokenizeDomain aHost) candidate.domainTokens)
         else 0
       else 0
     else 0,
     if ¬ input.phones.isEmpty then
       if input.phones.any (fun p => decide (lastTenDigits p ∈ candidate.last10Phones))
       then 3 else 0
     else 0,
     let inFb := strOr (input.fbList.headD "") input.fbDirect
     if inFb ≠ "" then
       if canonicalFacebook inFb ∈ candidate.fbHandles then 4 else 0
     else 0]

/-- Request body of /match after zod parsing: the four signal strings (""
models an absent field), plus the ranking/pagination controls. -/
inductive SortKey | score | name | website
deriving DecidableEq, Repr

inductive SortDir | asc | desc
deriving DecidableEq, Repr

structure MatchBody where
  name : String := ""
  website : String := ""
  phone : String := ""
  facebook : String := ""
  page : Option Int := none
  perPage : Option Int := none
  sortKey : Option SortKey := none
  sortDir : Option SortDir := none
  minScore : Option ℚ := none
  contains : String := ""
deriving DecidableEq, Repr

/-- Precomputed input features (the `pre` object, src lines 519-527). -/
structure PreQ where
  canonSite : String
  host : String
  domainTokens : List String
  nameNorm : String
  nameTokens : List String
  phone10 : String
  fbHandle : String
deriving DecidableEq, Repr

def preOf (b : MatchBody) : PreQ :=
  { canonSite := if b.website ≠ "" then canonicalUrl b.website else ""
    host := if b.website ≠ "" then extractHost b.website else ""
    domainTokens := if b.website ≠ "" then domainTokens (extractHost b.website) else []
    nameNorm := if b.name ≠ "" then normalizeText b.name else ""
    nameTokens := if b.name ≠ "" then nameTokens (normalizeText b.name) else []
    phone10 := if b.phone ≠ "" then last10 b.phone else ""
    fbHandle := if b.facebook ≠ "" then canonicalFacebook b.facebook else "" }

/-- fastScore from src (lines 529-547): the per-request scorer over precomputed
query features and an augmented record. -/
def fastScore (pre : PreQ) (c : AugProfile) : ℚ :=
  qsum
    [if pre.canonSite ≠ "" ∧ pre.canonSite = c.canonSite then 5 else 0,
     if pre.nameNorm ≠ "" ∧ c.nameNorm ≠ "" then
       if pre.nameNorm = c.nameNorm then 3
       else
         qadd (nameJBucket (jaccard pre.nameTokens c.nameTokens))
           (levBucket (levenshteinSim pre.nameNorm c.nameNorm))
     else 0,
     if ¬ pre.domainTokens.isEmpty ∧ ¬ c.domainTokens.isEmpty then
       domainJBucket (jaccard pre.domainTokens c.domainTokens)
     else 0,
     if pre.phone10 ≠ "" ∧ pre.phone10 ∈ c.last10Phones then 3 else 0,
     if pre.fbHandle ≠ "" ∧ pre.fbHandle ∈ c.fbHandles then 4 else 0]

/-- The input the brute-force tier hands to the reference scorer
(src lines 564-569). -/
def inputForScore (b : MatchBody) : ScoreInput :=
  { website := b.website
    name := b.name
    phones := if b.phone ≠ "" then [b.phone] else []
    fbList := if b.facebook ≠ "" then [b.facebook] else []
    fbDirect := "" }

/-- A hit from the Fuse.js fuzzy engines: catalog position and the engine's
optional relative distance score. -/
structure FuseHit where
  refIndex : Nat
  score : Option ℚ := none
deriving DecidableEq, Repr

/-- A row of the auxiliary names dataset used by the last-resort fallback. -/
structure NameRow where
  website : String := ""
  name : String := ""
deriving DecidableEq, Repr

/-- A hit from the Fuse search over the names dataset. -/
structure NamesHit where
  item : NameRow
  score : Option ℚ := none
deriving DecidableEq, Repr

/-- The external search engines the endpoint consults (the MiniSearch text
index and the strict/loose Fuse instances, plus the names-dataset Fuse).
These are third-party libraries; the pipeline is embedded as a function of
their result lists. -/
structure Oracles where
  mini : String → List Nat
  fuse : String → List FuseHit
  fuseLoose : String → List FuseHit
  namesSearch : String → List NamesHit

/-- A scored candidate ({idx, profile, score} of the source; the profile field
carries the base CompanyProfile part of the stored augmented record). -/
structure Scored where
  idx : Nat
  profile : Profile
  score : ℚ
deriving DecidableEq, Repr

/-- Position-tagging (`xs.map((x, i) => ...)`/enumerate). -/
def withPositions {α : Type} : Nat → List α → List (Nat × α)
  | _, [] => []
  | i, p :: ps => (i, p) :: withPositions (i + 1) ps

/-- The augmented catalog: baseProfiles.map((p, i) => augment) of loadIndexFrom. -/
def augAll (ps : List Profile) : List AugProfile :=
  (withPositions 0 ps).map (fun ip => augmentProfile ip.1 ip.2)

def getAug (aps : List AugProfile) (i : Nat) : AugProfile :=
  aps.getD i (augmentProfile 0 {})

/-- Exact-lookup maps of loadIndexFrom: positions carrying key k in build
order (ascending positions); addToIndex skips empty keys. -/
def byCanonSite (aps : List AugProfile) (k : String) : List Nat :=
  if k = "" then [] else (aps.filter (fun a => a.canonSite == k)).map (fun a => a.idx)

def byDomainToken (aps : List AugProfile) (t : String) : List Nat :=
  if t = "" then []
  else (aps.filter (fun a => a.domainTokens.contains t)).map (fun a => a.idx)

def byPhone10 (aps : List AugProfile) (k : String) : List Nat :=
  if k = "" then []
  else (aps.filter (fun a => a.last10Phones.contains k)).map (fun a => a.idx)

def byFacebook (aps : List AugProfile) (k : String) : List Nat :=
  if k = "" then []
  else (aps.filter (fun a => a.fbHandles.contains k)).map (fun a => a.idx)

/-- JS Set insertion: append when absent; iteration is in insertion order. -/
def addUnique (l : List Nat) (x : Nat) : List Nat := if l.contains x then l else l ++ [x]

def addAllUnique (l : List Nat) (xs : List Nat) : List Nat := xs.foldl addUnique l

/-- The combined free-text query of the fallback tiers
([name, website, phone, facebook].filter(Boolean).join(' ')). -/
def joinQuery (b : MatchBody) : String :=
  String.intercalate " " (([b.name, b.website, b.phone, b.facebook]).filter (fun s => s ≠ ""))

/-- Truthiness of (body.name || body.website || body.phone || body.facebook). -/
def queryPresent (b : MatchBody) : Bool :=
  b.name != "" || b.website != "" || b.phone != "" || b.facebook != ""

/-- Generic split on separator characters; used for the facebook handle
sub-token split on [._-] runs (extra empty pieces are removed by the length
filters at each use site). -/
def splitOnPredL (isSep : Char → Bool) : List Char → List (List Char)
  | [] => [[]]
  | c :: cs =>
    let r := splitOnPredL isSep cs
    if isSep c then [] :: r
    else
      match r with
      | h :: t => (c :: h) :: t
      | [] => [[c]]

/-- Facebook vanity-handle sub-tokens (src lines 499-502): parse the raw
facebook URL (a throwing parse contributes nothing), take the first path
segment, split on [._-], keep tokens longer than 2 characters. -/
def fbPathToks (facebook : String) : List String :=
  match parseHttpUrlL facebook.data with
  | none => []
  | some url =>
    let h := ((splitOnCharL '/' url.pathname.data).filter (fun x => !x.isEmpty)).headD []
    ((splitOnPredL (fun c => c == '.' || c == '_' || c == '-') h).map
        (fun t => (⟨t⟩ : String))).filter (fun t => decide (2 < t.length))

/-- Candidate generation of /match (src lines 466-516): per-signal union of
text-index and exact-map hits, the strict-fuzzy top-20 fallback when the union
is empty, then the MAX_CANDIDATES cap. -/
def gatherCandidates (O : Oracles) (aps : List AugProfile) (MC : Nat) (b : MatchBody) :
    List Nat :=
  let c : List Nat := []
  let c :=
    if b.name ≠ "" then
      let c := addAllUnique c (O.mini b.name)
      (tokenizeName b.name).foldl (fun acc tok => addAllUnique acc (O.mini tok)) c
    else c
  let c :=
    if b.website ≠ "" then
      let c := addAllUnique c (O.mini b.website)
      let c := addAllUnique c (byCanonSite aps (canonicalUrl b.website))
      (tokenizeDomain (getHost b.website)).foldl
        (fun acc tok => addAllUnique (addAllUnique acc (byDomainToken aps tok)) (O.mini tok)) c
    else c
  let c := if b.phone ≠ "" then addAllUnique c (byPhone10 aps (lastTenDigits b.phone)) else c
  let c :=
    if b.facebook ≠ "" then
      let c := addAllUnique c (byFacebook aps (canonicalFacebook b.facebook))
      (fbPathToks b.facebook).foldl (fun acc tok => addAllUnique acc (O.mini tok)) c
    else c
  let c :=
    if c.isEmpty && queryPresent b then
      addAllUnique c (((O.fuse (joinQuery b)).take 20).map (fun r => r.refIndex))
    else c
  if MC < c.length then c.take MC else c

/-- Initial scoring of the gathered candidates (src line 549). -/
def scoredInitial (O : Oracles) (aps : List AugProfile) (MC : Nat) (b : MatchBody) :
    List Scored :=
  (gatherCandidates O aps MC b).map
    (fun i => ⟨i, (getAug aps i).base, fastScore (preOf b) (getAug aps i)⟩)

/-- Stable insertion step: x goes before the first element it does not compare
after.  Folding from the right gives exactly a stable sort for the comparator,
the semantics ECMAScript guarantees for Array.prototype.sort. -/
def insertLE {α : Type} (cmp : α → α → ℚ) (x : α) : List α → List α
  | [] => [x]
  | y :: ys => if cmp x y ≤ 0 then x :: y :: ys else y :: insertLE cmp x ys

/-- Model of Array.prototype.sort with a comparator (stable). -/
def jsSortBy {α : Type} (cmp : α → α → ℚ) (l : List α) : List α :=
  l.foldr (insertLE cmp) []

/-- Comparator of the brute-force tier ((a, b) => b.score - a.score). -/
def bruteCmp (a b : Scored) : ℚ := qsub b.score a.score

/-- Strided index collection of the brute-force sampler
(for (i = 0; i < N && subset.length < cap; i += step) subset.push(i)). -/
def collectStrided (N step : Nat) : Nat → Nat → List Nat
  | _, 0 => []
  | i, cap + 1 => if i < N then i :: collectStrided N step (i + step) cap else []

/-- Brute-force last resort (src lines 563-584): score the whole catalog, or a
strided sample of at most cap positions when the catalog exceeds the cap, sort
descending by score, keep the top 10. -/
def bruteForce (aps : List AugProfile) (pre : PreQ) (MBF : Nat) : List Scored :=
  let N := aps.length
  let cap := min MBF N
  if cap < N then
    let step := max 1 (N / cap)
    (jsSortBy bruteCmp ((collectStrided N step 0 cap).map
      (fun i => ⟨i, (getAug aps i).base, fastScore pre (getAug aps i)⟩))).take 10
  else
    (jsSortBy bruteCmp (aps.map
      (fun a => (⟨a.idx, a.base, fastScore pre a⟩ : Scored)))).take 10

/-- Post-scoring safety net (src lines 552-586): when nothing scored or every
candidate scored zero, retry with strict fuzzy (top 10), then loose fuzzy
(top 10), then brute force; fuzzy-tier scores are max(0.1, (1 - raw) * 0.5). -/
def safetyNetStage (O : Oracles) (aps : List AugProfile) (MBF : Nat) (b : MatchBody)
    (scored : List Scored) : List Scored :=
  if (scored.isEmpty || scored.all (fun s => s.score == 0)) && queryPresent b then
    let q := joinQuery b
    let fuseRes := (O.fuse q).take 10
    let fuseRes := if fuseRes.isEmpty then (O.fuseLoose q).take 10 else fuseRes
    if !fuseRes.isEmpty then
      fuseRes.map (fun r =>
        ⟨r.refIndex, (getAug aps r.refIndex).base,
          max (mkRat 1 10) (qmul (qsub 1 (r.score.getD 1)) (mkRat 1 2))⟩)
    else
      bruteForce aps (preOf b) MBF
  else scored

/-- Model of localeCompare: sign-compatible three-way string comparison.
Locale collation can differ from code-point order; the ranking properties
proved below use only the comparator's sign and antisymmetry. -/
def strCmpJS (a b : String) : ℚ := if a < b then -1 else if b < a then 1 else 0

/-- The sort comparator of the Ranker (src lines 605-610). -/
def cmpFor (k : SortKey) (d : SortDir) (a b : Scored) : ℚ :=
  let mul : ℚ := if d = SortDir.asc then 1 else -1
  match k with
  | SortKey.name => qmul mul (strCmpJS a.profile.name b.profile.name)
  | SortKey.website => qmul mul (strCmpJS a.profile.website b.profile.website)
  | SortKey.score => qmul mul (qsub a.score b.score)

/-- Case-insensitive substring test ((x || '').toLowerCase().includes(c)). -/
def containsSub (hay needle : String) : Bool := occursL needle.data hay.data

/-- Filter, sort, and names-dataset fallback of the Ranker (src lines 588-623):
the full filtered, sorted candidate list, before pagination. -/
def rankedList (O : Oracles) (names : List NameRow) (b : MatchBody)
    (scored : List Scored) : List Scored :=
  let minScore := b.minScore.getD 0
  let contains := jsTrim (jsLower b.contains)
  let list := scored
  let list := if 0 < minScore then list.filter (fun s => decide (minScore ≤ s.score)) else list
  let list :=
    if contains ≠ "" then
      list.filter (fun s =>
        containsSub (jsLower s.profile.name) contains ||
        containsSub (jsLower s.profile.website) contains)
    else list
  let list := jsSortBy (cmpFor (b.sortKey.getD SortKey.score) (b.sortDir.getD SortDir.desc)) list
  if scored.isEmpty then
    if !names.isEmpty then
      let nf := (O.namesSearch (joinQuery b)).take 10
      if !nf.isEmpty then
        (withPositions 0 nf).map (fun kr =>
          ⟨kr.1, { website := kr.2.item.website, name := kr.2.item.name },
            max (mkRat 1 10) (qmul (qsub 1 (kr.2.score.getD 1)) (mkRat 2 5))⟩)
      else list
    else list
  else list

/-- JS Number(x ?? d) || d for the integer pagination controls (a NaN result of
Number is modelled as an absent field, both yielding the default). -/
def jsNumOr (o : Option Int) (d : Int) : Int :=
  let v := o.getD d
  if v = 0 then d else v

/-- Array.prototype.slice(start, stop) for in-range natural bounds. -/
def jsSlice {α : Type} (l : List α) (start stop : Nat) : List α :=
  (l.drop start).take (stop - start)

/-- Math.ceil(a / b) on naturals, for b > 0. -/
def jsCeilDiv (a b : Nat) : Nat := (a + b - 1) / b

structure MatchMeta where
  total : Nat
  totalPages : Nat
  page : Nat
  perPage : Nat
deriving DecidableEq, Repr

structure MatchResponse where
  best : Option Profile
  candidates : List Scored
  meta : MatchMeta
deriving DecidableEq, Repr

/-- Ranker/Paginator of /match (src lines 588-639): clamp the controls, build
the filtered sorted list, paginate, take best = head of the unpaginated list. -/
def finalizeStage (O : Oracles) (names : List NameRow) (b : MatchBody)
    (scored : List Scored) : MatchResponse :=
  let page := (max 1 (jsNumOr b.page 1)).toNat
  let perPage := (min 50 (max 5 (jsNumOr b.perPage 10))).toNat
  let list := rankedList O names b scored
  let total := list.length
  let totalPages := max 1 (jsCeilDiv total perPage)
  let pageClamped := min page totalPages
  let start := (pageClamped - 1) * perPage
  { best := (list.head?).map (fun s => s.profile)
    candidates := jsSlice list start (start + perPage)
    meta := { total := total, totalPages := totalPages, page := pageClamped, perPage := perPage } }

/-- The /match pipeline end to end, for a catalog ps, the MAX_CANDIDATES and
MAX_BRUTE_FORCE caps, the auxiliary names dataset, and a parsed body. -/
def matchPipeline (O : Oracles) (ps : List Profile) (MC MBF : Nat)
    (names : List NameRow) (b : MatchBody) : MatchResponse :=
  let aps := augAll ps
  finalizeStage O names b (safetyNetStage O aps MBF b (scoredInitial O aps MC b))

def acmeFixture : Profile :=
  { website := "https://acme.com", name := "Acme Inc", phones := ["+14155551212"],
    facebook := ["https://facebook.com/acme"], address := "123 Market St" }

def emptyOracles : Oracles := ⟨fun _ => [], fun _ => [], fun _ => [], fun _ => []⟩

def shortPhoneProfile : Profile := { phones := ["555-1212"] }

/-- Per-signal contribution table exactly as claim C1 words it (a second
definition following the spec's words, to compare with the source scorer):
+5 when the query website's canonical form equals the record's canonical site;
for a present name +3 on normalized equality, otherwise the token-Jaccard
bucket stacked with the edit-distance-ratio bucket; the domain-token Jaccard
bucket; +3 when the query phone's ten-digit key is in the record's key set;
+4 when the canonical facebook handles are equal. -/
def claimScoreC1 (b : MatchBody) (c : AugProfile) : ℚ :=
  qsum
    [if b.website ≠ "" ∧ canonicalUrl b.website = c.canonSite then 5 else 0,
     if b.name ≠ "" then
       if normalizeText b.name = c.nameNorm then 3
       else
         qadd (nameJBucket (jaccard (nameTokens (normalizeText b.name)) c.nameTokens))
           (levBucket (levenshteinSim (normalizeText b.name) c.nameNorm))
     else 0,
     if b.website ≠ "" then
       domainJBucket (jaccard (domainTokens (extractHost b.website)) c.domainTokens)
     else 0,
     if b.phone ≠ "" ∧ last10 b.phone ∈ c.last10Phones then 3 else 0,
     if b.facebook ≠ "" ∧ canonicalFacebook b.facebook ∈ c.fbHandles then 4 else 0]

/-- Claim C1's table as amended: the website contribution additionally requires
the query website's canonical form to be non-empty (the source scorers guard
every signal on a truthy canonical key, so two sites that both canonicalize to
the empty string score nothing). -/
def claimScoreC1Amended (b : MatchBody) (c : AugProfile) : ℚ :=
  qsum
    [if b.website ≠ "" ∧ canonicalUrl b.website ≠ "" ∧ canonicalUrl b.website = c.canonSite
     then 5 else 0,
     if b.name ≠ "" then
       if normalizeText b.name = c.nameNorm then 3
       else
         qadd (nameJBucket (jaccard (nameTokens (normalizeText b.name)) c.nameTokens))
           (levBucket (levenshteinSim (normalizeText b.name) c.nameNorm))
     else 0,
     if b.website ≠ "" then
       domainJBucket (jaccard (domainTokens (extractHost b.website)) c.domainTokens)
     else 0,
     if b.phone ≠ "" ∧ last10 b.phone ∈ c.last10Phones then 3 else 0,
     if b.facebook ≠ "" ∧ canonicalFacebook b.facebook ∈ c.fbHandles then 4 else 0]

def emptySiteProfile : Profile := { website := "https://" }

def c1WitnessBody : MatchBody :=
  { name := "Acme Inc", website := "https://acme.com", phone := "+1 (415) 555-1212",
    facebook := "https://facebook.com/acme" }

/-- The property claim C2 asserts of the Ranker's sort: any two entries of the
sorted output whose sort keys compare equal appear in ascending catalog
position. -/
def blankProfile : Profile := {}

def dummyScored : Scored := ⟨0, blankProfile, 0⟩

def tiesByCatalogPos (k : SortKey) (d : SortDir) (l : List Scored) : Prop :=
  ∀ i < (jsSortBy (cmpFor k d) l).length, ∀ j < (jsSortBy (cmpFor k d) l).length,
    i < j →
    cmpFor k d ((jsSortBy (cmpFor k d) l).getD i dummyScored)
        ((jsSortBy (cmpFor k d) l).getD j dummyScored) = 0 →
    ((jsSortBy (cmpFor k d) l).getD i dummyScored).idx
      < ((jsSortBy (cmpFor k d) l).getD j dummyScored).idx

/-- Position-tagged comparator: the given comparator with the pre-sort list
position as the final tie-break key. -/
def posTieCmp {α : Type} (cmp : α → α → ℚ) (a b : Nat × α) : ℚ :=
  let q := cmp a.2 b.2
  if q = 0 then qsub (a.1 : ℚ) (b.1 : ℚ) else q

/-- The score the fuzzy safety-net tiers assign to a hit
(max(0.1, (1 - rawDistance) * 0.5)). -/
def fuzzyTierScore (r : FuseHit) : ℚ := max (mkRat 1 10) (qmul (qsub 1 (r.score.getD 1)) (mkRat 1 2))

def c3Oracles : Oracles :=
  { mini := fun _ => [], fuse := fun _ => [⟨0, some (mkRat 1 5)⟩],
    fuseLoose := fun _ => [], namesSearch := fun _ => [] }

/-- A bare already-canonical host string: non-empty, every character legal in a
WHATWG host, already lower-case, and no leading www. to strip. canonicalUrl is
the identity on these, which yields the guarded idempotence law. -/
def bareHostSafe (s : String) : Bool :=
  !s.data.isEmpty &&
  s.data.all (fun c => !forbiddenHostChar c) &&
  (jsLowerL s.data == s.data) &&
  !("www.".data.isPrefixOf s.data)

/-- A clean facebook handle string facebook.com/<seg> whose segment is free of
the path and scheme delimiters; canonicalFacebook is the identity on these. -/
def fbHandleSafe (s : String) : Bool :=
  "facebook.com/".data.isPrefixOf s.data &&
  (s.data.drop 13).all (fun c =>
    c != '/' && c != '?' && c != '#' && c != '\\' && c != ':')

theorem qadd_eq (a b : ℚ) : qadd a b = a + b := (Rat.add_def' a b).symm

theorem qsub_eq (a b : ℚ) : qsub a b = a - b := (Rat.sub_def' a b).symm

theorem qmul_eq (a b : ℚ) : qmul a b = a * b := by
  rw [qmul, Rat.mul_def, Rat.normalize_eq_mkRat]

theorem qdiv_eq (a b : ℚ) : qdiv a b = a / b := by
  rw [qdiv, Rat.div_def']

theorem qsum_eq (l : List ℚ) : qsum l = l.sum := by
  suffices h : ∀ a : ℚ, l.foldl qadd a = a + l.sum by
    simpa [qsum] using h 0
  induction l with
  | nil => intro a; simp
  | cons x xs ih => intro a; simp [List.foldl_cons, qadd_eq, ih, add_assoc]

/-
Support lemmas.
-/

theorem jsIsWS_jsCharLower (c : Char) : jsIsWS (jsCharLower c) = jsIsWS c := by
  rcases hf : upperLowerTable.find? (fun p => p.1 == c) with _ | p
  · simp [jsCharLower, hf]
  · have hmem := List.mem_of_find?_eq_some hf
    have hbeq := List.find?_some hf
    have hc : p.1 = c := by simpa using hbeq
    have h2 : jsIsWS p.2 = false :=
      (show ∀ q ∈ upperLowerTable, jsIsWS q.2 = false by decide) p hmem
    have h1 : jsIsWS p.1 = false :=
      (show ∀ q ∈ upperLowerTable, jsIsWS q.1 = false by decide) p hmem
    simp only [jsCharLower, hf, Option.map_some', Option.getD_some]
    rw [h2, ← hc, h1]

theorem jsTrimL_eq_nil_all_ws {l : List Char} (h : jsTrimL l = []) :
    ∀ c ∈ l, jsIsWS c = true := by
  intro c hc
  unfold jsTrimL at h
  rw [List.reverse_eq_nil_iff, List.dropWhile_eq_nil_iff] at h
  rcases (List.takeWhile_append_dropWhile (p := jsIsWS) (l := l)).symm ▸ hc with hmem
  rw [List.mem_append] at hmem
  rcases hmem with h1 | h2
  · exact List.mem_takeWhile_imp h1
  · exact h c (List.mem_reverse.mpr h2)

theorem normalizeText_ne_empty {s : String} (ht : jsTrim s = s) (hs : s ≠ "") :
    normalizeText s ≠ "" := by
  intro hcon
  have hd : s.data ≠ [] := fun hnil => hs (by cases s; simp_all)
  have hdata : jsTrimL (jsLowerL s.data) = [] := congrArg String.data hcon
  have hall : ∀ c ∈ jsLowerL s.data, jsIsWS c = true := jsTrimL_eq_nil_all_ws hdata
  obtain ⟨c, rest, hrest⟩ : ∃ c rest, s.data = c :: rest := by
    cases hcd : s.data with
    | nil => exact absurd hcd hd
    | cons c rest => exact ⟨c, rest, rfl⟩
  have hcws : jsIsWS c = true := by
    have := hall (jsCharLower c) (by rw [hrest]; exact List.mem_map_of_mem _ (by simp))
    rwa [jsIsWS_jsCharLower] at this
  have htd : jsTrimL s.data = s.data := congrArg String.data ht
  have hlen : (jsTrimL s.data).length < s.data.length := by
    unfold jsTrimL
    rw [hrest]
    simp only [List.dropWhile_cons, hcws, if_true, List.length_reverse]
    calc (List.dropWhile jsIsWS (List.dropWhile jsIsWS rest).reverse).length
        ≤ (List.dropWhile jsIsWS rest).reverse.length :=
          (List.dropWhile_sublist jsIsWS).length_le
      _ = (List.dropWhile jsIsWS rest).length := List.length_reverse _
      _ ≤ rest.length := (List.dropWhile_sublist jsIsWS).length_le
      _ < (c :: rest).length := by simp
  rw [htd] at hlen
  exact Nat.lt_irrefl _ hlen

theorem aug_nameTokens_nil (i : Nat) (p : Profile)
    (h : (augmentProfile i p).nameNorm = "") : (augmentProfile i p).nameTokens = [] := by
  unfold augmentProfile at h ⊢
  simp only at h ⊢
  rw [h]
  simp

theorem aug_empty_notin_phones (i : Nat) (p : Profile) :
    "" ∉ (augmentProfile i p).last10Phones := by
  unfold augmentProfile
  simp only [List.mem_filter]
  rintro ⟨-, h⟩
  simp at h

theorem aug_empty_notin_fb (i : Nat) (p : Profile) :
    "" ∉ (augmentProfile i p).fbHandles := by
  unfold augmentProfile
  simp only [List.mem_filter]
  rintro ⟨-, h⟩
  simp at h

theorem jaccard_nil_left (b : List String) : jaccard [] b = 0 := by simp [jaccard]

theorem jaccard_nil_right (a : List String) : jaccard a [] = 0 := by
  unfold jaccard
  simp

theorem levRow_nil_fold (l : List Char) (k : Nat) :
    l.foldl (levRow []) [k] = [k + l.length] := by
  induction l generalizing k with
  | nil => simp
  | cons c cs ih =>
    simp only [List.foldl_cons, levRow, levRowGo, List.length_cons]
    rw [ih]
    congr 1
    omega

theorem levenshteinSim_empty_right {a : String} (h : a ≠ "") : levenshteinSim a "" = 0 := by
  have hd : a.data ≠ [] := fun hnil => h (by cases a; simp_all)
  have hlen : a.data.length ≠ 0 := fun hl => hd (List.eq_nil_of_length_eq_zero hl)
  have hdist : levDistL a.data ("" : String).data = a.data.length := by
    unfold levDistL
    show (a.data.foldl (levRow []) (List.range 1)).getLastD 0 = a.data.length
    rw [show List.range 1 = [0] from rfl, levRow_nil_fold]
    simp
  show (if a.length = 0 ∧ ("" : String).length = 0 then (1 : ℚ)
    else qsub 1 (qdiv (levDistL a.data ("" : String).data : ℚ)
      ((max a.length ("" : String).length : ℕ) : ℚ))) = 0
  rw [if_neg (show ¬ (a.length = 0 ∧ ("" : String).length = 0) from fun hand => hlen hand.1)]
  rw [hdist, qsub_eq, qdiv_eq]
  have hmax : (max a.length ("" : String).length : ℕ) = a.data.length := by
    show max a.data.length 0 = a.data.length
    omega
  rw [hmax, div_self (by exact_mod_cast hlen)]
  ring

theorem last10_length (s : String) : (last10 s).length = min 10 (digitsOf s).length := by
  show ((jsDigitsL s.data).drop ((jsDigitsL s.data).length - 10)).length
    = min 10 (jsDigitsL s.data).length
  rw [List.length_drop]
  omega

theorem mem_aug_phones {k : String} {i : Nat} {p : Profile}
    (hk : k ∈ (augmentProfile i p).last10Phones) : ∃ ph ∈ p.phones, k = last10 ph := by
  unfold augmentProfile at hk
  simp only [List.mem_filter, List.mem_map] at hk
  obtain ⟨⟨ph, hph, rfl⟩, -⟩ := hk
  exact ⟨ph, hph, rfl⟩

/-- Claim C7 (confirmed): phoneKey strips all non-digit characters and keeps the
last ten digits, so the three sample spellings share the key 4155551212. -/
theorem c7_theorem :
    last10 "+1 (415) 555-1212" = "4155551212" ∧
    last10 "14155551212" = "4155551212" ∧
    last10 "4155551212" = "4155551212" ∧
    digitsOf "+1 (415) 555-1212" = "14155551212" := by decide

/-- Claim C9 (confirmed): the duplicated scheme with a missing colon is repaired
by preSanitizeUrl before URL parsing, the host is kept and the trailing slash is
stripped, so canonicalWebsite("https://https//acornlawpc.com/") = "acornlawpc.com". -/
theorem c9_theorem :
    preSanitizeUrl "https://https//acornlawpc.com/" = "https://acornlawpc.com/" ∧
    canonicalUrl "https://https//acornlawpc.com/" = "acornlawpc.com" := by decide

/-- Claim C5 counterexample: a query phone with seven digits collides with the
phone key of a catalog record whose stored phone also has seven digits, and
does contribute the +3 phone points there, contrary to the claim that a short
key never equals any catalog phone key. -/
theorem c5_counterexample :
    (digitsOf "5551212").length < 10 ∧
    last10 "5551212" ∈ (augmentProfile 0 shortPhoneProfile).last10Phones ∧
    fastScore (preOf { phone := "5551212" }) (augmentProfile 0 shortPhoneProfile) = 3 := by
  decide

/-- Claim C5 (corrected) as amended: a raw phone string with fewer than ten
digits after stripping yields a key that never equals a catalog phone key
derived from a phone with at least ten digits; against a record all of whose
phones have at least ten digits it contributes no phone points (and a
phone-only query then scores zero). -/
theorem c5_theorem (s : String) (i : Nat) (p : Profile)
    (hs : (digitsOf s).length < 10)
    (hp : ∀ ph ∈ p.phones, 10 ≤ (digitsOf ph).length) :
    last10 s ∉ (augmentProfile i p).last10Phones ∧
    fastScore (preOf { phone := s }) (augmentProfile i p) = 0 := by
  have hnotin : last10 s ∉ (augmentProfile i p).last10Phones := by
    intro hmem
    obtain ⟨ph, hph, heq⟩ := mem_aug_phones hmem
    have h1 : (last10 s).length = (digitsOf s).length := by rw [last10_length]; omega
    have h2 : (last10 ph).length = 10 := by
      rw [last10_length]
      have := hp ph hph
      omega
    rw [heq, h2] at h1
    omega
  refine ⟨hnotin, ?_⟩
  have e1 : (preOf ({ phone := s } : MatchBody)).canonSite = "" := rfl
  have e2 : (preOf ({ phone := s } : MatchBody)).nameNorm = "" := rfl
  have e3 : (preOf ({ phone := s } : MatchBody)).domainTokens = [] := rfl
  have e5 : (preOf ({ phone := s } : MatchBody)).fbHandle = "" := rfl
  have e4 : (preOf ({ phone := s } : MatchBody)).phone10 = if s ≠ "" then last10 s else "" := rfl
  unfold fastScore
  rw [if_neg (by rw [e1]; rintro ⟨hne, -⟩; exact hne rfl)]
  rw [if_neg (by rw [e2]; rintro ⟨hne, -⟩; exact hne rfl)]
  rw [if_neg (by rw [e3]; rintro ⟨hne, -⟩; simp at hne)]
  rw [if_neg (show ¬ ((preOf ({ phone := s } : MatchBody)).phone10 ≠ "" ∧
      (preOf ({ phone := s } : MatchBody)).phone10 ∈ (augmentProfile i p).last10Phones) by
    rw [e4]
    by_cases hs0 : s = ""
    · rw [if_neg (by simpa using hs0)]
      rintro ⟨hne, -⟩
      exact hne rfl
    · rw [if_pos hs0]
      rintro ⟨-, hmem⟩
      exact hnotin hmem)]
  rw [if_neg (by rw [e5]; rintro ⟨hne, -⟩; exact hne rfl)]
  decide

/-- Claim C5 witness: the amended statement applied to the ten-digit catalog
fixture and a seven-digit query phone. -/
theorem c5_witness :
    (digitsOf "5551212").length < 10 ∧
    (last10 "5551212" ∉ (augmentProfile 0 acmeFixture).last10Phones ∧
      fastScore (preOf { phone := "5551212" }) (augmentProfile 0 acmeFixture) = 0) :=
  ⟨by decide, c5_theorem "5551212" 0 acmeFixture (by decide) (by decide)⟩

/-- Claim C1 counterexample: for the query website "https://" (canonical form
empty) and a record whose stored website also canonicalizes to the empty
string, the claimed table awards +5 for canonical-site equality while the
scorer awards nothing: the score is not the claimed sum. -/
theorem c1_counterexample :
    claimScoreC1 { website := "https://" } (augmentProfile 0 emptySiteProfile) = 5 ∧
    fastScore (preOf { website := "https://" }) (augmentProfile 0 emptySiteProfile) = 0 ∧
    canonicalUrl "https://" = (augmentProfile 0 emptySiteProfile).canonSite := by decide

theorem c1_web_comp (b : MatchBody) (c : AugProfile) :
    (if b.website ≠ "" ∧ canonicalUrl b.website ≠ "" ∧ canonicalUrl b.website = c.canonSite
     then (5 : ℚ) else 0)
    = (if (preOf b).canonSite ≠ "" ∧ (preOf b).canonSite = c.canonSite then (5 : ℚ) else 0) := by
  by_cases hw : b.website = ""
  · simp [preOf, hw]
  · simp [preOf, hw]

theorem c1_name_comp (b : MatchBody) (c : AugProfile)
    (hname : jsTrim b.name = b.name)
    (htok : c.nameNorm = "" → c.nameTokens = []) :
    (if b.name ≠ "" then
       if normalizeText b.name = c.nameNorm then (3 : ℚ)
       else
         qadd (nameJBucket (jaccard (nameTokens (normalizeText b.name)) c.nameTokens))
           (levBucket (levenshteinSim (normalizeText b.name) c.nameNorm))
     else 0)
    = (if (preOf b).nameNorm ≠ "" ∧ c.nameNorm ≠ "" then
       if (preOf b).nameNorm = c.nameNorm then (3 : ℚ)
       else
         qadd (nameJBucket (jaccard (preOf b).nameTokens c.nameTokens))
           (levBucket (levenshteinSim (preOf b).nameNorm c.nameNorm))
     else 0) := by
  by_cases hn : b.name = ""
  · simp [preOf, hn]
  · have hnn : normalizeText b.name ≠ "" := normalizeText_ne_empty hname hn
    have hpren : (preOf b).nameNorm = normalizeText b.name := by simp [preOf, hn]
    have hpret : (preOf b).nameTokens = nameTokens (normalizeText b.name) := by simp [preOf, hn]
    rw [hpren, hpret, if_pos hn]
    by_cases hcn : c.nameNorm = ""
    · rw [if_neg (show ¬ (normalizeText b.name ≠ "" ∧ c.nameNorm ≠ "") from
        fun hand => hand.2 hcn)]
      rw [if_neg (show ¬ normalizeText b.name = c.nameNorm from by rw [hcn]; exact hnn)]
      rw [htok hcn, jaccard_nil_right, hcn, levenshteinSim_empty_right hnn]
      decide
    · rw [if_pos (show normalizeText b.name ≠ "" ∧ c.nameNorm ≠ "" from ⟨hnn, hcn⟩)]

theorem c1_domain_comp (b : MatchBody) (c : AugProfile) :
    (if b.website ≠ "" then
       domainJBucket (jaccard (domainTokens (extractHost b.website)) c.domainTokens)
     else 0)
    = (if ¬ (preOf b).domainTokens.isEmpty ∧ ¬ c.domainTokens.isEmpty then
       domainJBucket (jaccard (preOf b).domainTokens c.domainTokens)
     else 0) := by
  by_cases hw : b.website = ""
  · simp [preOf, hw]
  · have hpre : (preOf b).domainTokens = domainTokens (extractHost b.website) := by
      simp [preOf, hw]
    rw [hpre, if_pos hw]
    by_cases hdt : domainTokens (extractHost b.website) = []
    · rw [hdt, jaccard_nil_left, if_neg (by rintro ⟨hne, -⟩; simp [hdt] at hne)]
      decide
    · by_cases hcd : c.domainTokens = []
      · rw [hcd, jaccard_nil_right, if_neg (by rintro ⟨-, hne⟩; simp [hcd] at hne)]
        decide
      · rw [if_pos ⟨by simpa using hdt, by simpa using hcd⟩]

theorem c1_phone_comp (b : MatchBody) (c : AugProfile) (hno : "" ∉ c.last10Phones) :
    (if b.phone ≠ "" ∧ last10 b.phone ∈ c.last10Phones then (3 : ℚ) else 0)
    = (if (preOf b).phone10 ≠ "" ∧ (preOf b).phone10 ∈ c.last10Phones then (3 : ℚ) else 0) := by
  by_cases hp : b.phone = ""
  · simp [preOf, hp]
  · have hpre : (preOf b).phone10 = last10 b.phone := by simp [preOf, hp]
    rw [hpre]
    by_cases hk : last10 b.phone = ""
    · rw [if_neg (by rintro ⟨-, hm⟩; rw [hk] at hm; exact hno hm),
        if_neg (by rintro ⟨hne, -⟩; exact hne hk)]
    · simp [hp, hk]

theorem c1_fb_comp (b : MatchBody) (c : AugProfile) (hno : "" ∉ c.fbHandles) :
    (if b.facebook ≠ "" ∧ canonicalFacebook b.facebook ∈ c.fbHandles then (4 : ℚ) else 0)
    = (if (preOf b).fbHandle ≠ "" ∧ (preOf b).fbHandle ∈ c.fbHandles then (4 : ℚ) else 0) := by
  by_cases hf : b.facebook = ""
  · simp [preOf, hf]
  · have hpre : (preOf b).fbHandle = canonicalFacebook b.facebook := by simp [preOf, hf]
    rw [hpre]
    by_cases hk : canonicalFacebook b.facebook = ""
    · rw [if_neg (by rintro ⟨-, hm⟩; rw [hk] at hm; exact hno hm),
        if_neg (by rintro ⟨hne, -⟩; exact hne hk)]
    · simp [hf, hk]

/-- Claim C1 (corrected) as amended: for every zod-trimmed query and every
augmented catalog record, the confidence score computed by the scorer is the
amended table's sum of independent per-signal contributions. -/
theorem c1_theorem (b : MatchBody) (i : Nat) (p : Profile)
    (hname : jsTrim b.name = b.name) :
    claimScoreC1Amended b (augmentProfile i p) = fastScore (preOf b) (augmentProfile i p) := by
  unfold claimScoreC1Amended fastScore
  rw [c1_web_comp b (augmentProfile i p),
    c1_name_comp b (augmentProfile i p) hname (aug_nameTokens_nil i p),
    c1_domain_comp b (augmentProfile i p),
    c1_phone_comp b (augmentProfile i p) (aug_empty_notin_phones i p),
    c1_fb_comp b (augmentProfile i p) (aug_empty_notin_fb i p)]

/-- Claim C1 witness: the amended table coincides with the scorer on a concrete
query with every signal present, against the concrete fixture record. -/
theorem c1_witness :
    jsTrim "Acme Inc" = "Acme Inc" ∧
    claimScoreC1Amended c1WitnessBody (augmentProfile 0 acmeFixture)
      = fastScore (preOf c1WitnessBody) (augmentProfile 0 acmeFixture) :=
  ⟨by decide, c1_theorem c1WitnessBody 0 acmeFixture (by decide)⟩

theorem c10_web (b : MatchBody) (c : AugProfile) :
    (if (inputForScore b).website ≠ "" then
       let wantCanon := canonicalUrl (inputForScore b).website
       if wantCanon ≠ "" ∧ wantCanon = c.canonSite then (5 : ℚ) else 0
     else 0)
    = (if (preOf b).canonSite ≠ "" ∧ (preOf b).canonSite = c.canonSite then (5 : ℚ) else 0) := by
  by_cases hw : b.website = ""
  · simp [inputForScore, preOf, hw]
  · simp [inputForScore, preOf, hw]

theorem c10_name (b : MatchBody) (i : Nat) (p : Profile)
    (hname : jsTrim b.name = b.name) :
    (if (inputForScore b).name ≠ "" ∧ (augmentProfile i p).base.name ≠ "" then
       let a := normalizeString (inputForScore b).name
       let bb := strOr (augmentProfile i p).nameNorm
         (normalizeString (augmentProfile i p).base.name)
       if a = bb then (3 : ℚ)
       else
         qadd (nameJBucket (jaccardSimilarity (tokenizeName a) (augmentProfile i p).nameTokens))
           (levBucket (levenshteinSim a bb))
     else 0)
    = (if (preOf b).nameNorm ≠ "" ∧ (augmentProfile i p).nameNorm ≠ "" then
       if (preOf b).nameNorm = (augmentProfile i p).nameNorm then (3 : ℚ)
       else
         qadd (nameJBucket (jaccard (preOf b).nameTokens (augmentProfile i p).nameTokens))
           (levBucket (levenshteinSim (preOf b).nameNorm (augmentProfile i p).nameNorm))
     else 0) := by
  have hbase : (augmentProfile i p).base.name = p.name := rfl
  by_cases hn : b.name = ""
  · simp [inputForScore, preOf, hn]
  · have hnn : normalizeText b.name ≠ "" := normalizeText_ne_empty hname hn
    by_cases hp0 : p.name = ""
    · have hcn : (augmentProfile i p).nameNorm = "" := by
        show (if p.name ≠ "" then normalizeString p.name else "") = ""
        rw [if_neg (by simpa using hp0)]
      rw [if_neg (show ¬ ((inputForScore b).name ≠ "" ∧ (augmentProfile i p).base.name ≠ "")
        from fun hand => hand.2 (by rw [hbase]; exact hp0))]
      rw [if_neg (show ¬ ((preOf b).nameNorm ≠ "" ∧ (augmentProfile i p).nameNorm ≠ "")
        from fun hand => hand.2 hcn)]
    · have hcn : (augmentProfile i p).nameNorm = normalizeString p.name := by
        show (if p.name ≠ "" then normalizeString p.name else "") = _
        rw [if_pos hp0]
      by_cases hpn : normalizeString p.name = ""
      · have hcn0 : (augmentProfile i p).nameNorm = "" := by rw [hcn, hpn]
        rw [if_neg (show ¬ ((preOf b).nameNorm ≠ "" ∧ (augmentProfile i p).nameNorm ≠ "")
          from fun hand => hand.2 hcn0)]
        rw [if_pos (show (inputForScore b).name ≠ "" ∧ (augmentProfile i p).base.name ≠ ""
          from ⟨by simpa [inputForScore] using hn, by rw [hbase]; exact hp0⟩)]
        show (if normalizeString (inputForScore b).name
            = strOr (augmentProfile i p).nameNorm
              (normalizeString (augmentProfile i p).base.name) then (3 : ℚ)
          else qadd (nameJBucket (jaccardSimilarity
              (tokenizeName (normalizeString (inputForScore b).name))
              (augmentProfile i p).nameTokens))
            (levBucket (levenshteinSim (normalizeString (inputForScore b).name)
              (strOr (augmentProfile i p).nameNorm
                (normalizeString (augmentProfile i p).base.name))))) = 0
        have hstr : strOr (augmentProfile i p).nameNorm
            (normalizeString (augmentProfile i p).base.name) = "" := by
          rw [hcn0, hbase, hpn]
          rfl
        have hia : normalizeString (inputForScore b).name = normalizeText b.name := rfl
        rw [hstr, hia]
        rw [if_neg hnn]
        have htok : (augmentProfile i p).nameTokens = [] :=
          aug_nameTokens_nil i p hcn0
        rw [htok]
        show qadd (nameJBucket (jaccard (nameTokens (normalizeText b.name)) []))
          (levBucket (levenshteinSim (normalizeText b.name) "")) = 0
        rw [jaccard_nil_right, levenshteinSim_empty_right hnn]
        decide
      · have hcnn : (augmentProfile i p).nameNorm ≠ "" := by rw [hcn]; exact hpn
        rw [if_pos (show (inputForScore b).name ≠ "" ∧ (augmentProfile i p).base.name ≠ ""
          from ⟨by simpa [inputForScore] using hn, by rw [hbase]; exact hp0⟩)]
        rw [if_pos (show (preOf b).nameNorm ≠ "" ∧ (augmentProfile i p).nameNorm ≠ ""
          from ⟨by simpa [preOf, hn] using hnn, hcnn⟩)]
        have hstr : strOr (augmentProfile i p).nameNorm
            (normalizeString (augmentProfile i p).base.name) = (augmentProfile i p).nameNorm := by
          unfold strOr
          rw [if_pos hcnn]
        show (if normalizeText b.name
            = strOr (augmentProfile i p).nameNorm
              (normalizeString (augmentProfile i p).base.name) then (3 : ℚ)
          else qadd (nameJBucket (jaccard (nameTokens (normalizeText b.name))
              (augmentProfile i p).nameTokens))
            (levBucket (levenshteinSim (normalizeText b.name)
              (strOr (augmentProfile i p).nameNorm
                (normalizeString (augmentProfile i p).base.name)))))
          = (if (preOf b).nameNorm = (augmentProfile i p).nameNorm then (3 : ℚ)
          else qadd (nameJBucket (jaccard (preOf b).nameTokens (augmentProfile i p).nameTokens))
            (levBucket (levenshteinSim (preOf b).nameNorm (augmentProfile i p).nameNorm)))
        have hpren : (preOf b).nameNorm = normalizeText b.name := by simp [preOf, hn]
        have hpret : (preOf b).nameTokens = nameTokens (normalizeText b.name) := by
          simp [preOf, hn]
        rw [hstr, hpren, hpret]

theorem c10_domain (b : MatchBody) (c : AugProfile) :
    (if (inputForScore b).website ≠ "" then
       let aHost := getHost (inputForScore b).website
       if aHost ≠ "" then
         if ¬ c.domainTokens.isEmpty then
           domainJBucket (jaccardSimilarity (tokenizeDomain aHost) c.domainTokens)
         else 0
       else 0
     else 0)
    = (if ¬ (preOf b).domainTokens.isEmpty ∧ ¬ c.domainTokens.isEmpty then
       domainJBucket (jaccard (preOf b).domainTokens c.domainTokens)
     else 0) := by
  by_cases hw : b.website = ""
  · simp [inputForScore, preOf, hw]
  · have hiw : (inputForScore b).website = b.website := rfl
    have hpre : (preOf b).domainTokens = domainTokens (extractHost b.website) := by
      simp [preOf, hw]
    rw [hiw, if_pos hw, hpre]
    show (if getHost b.website ≠ "" then
        if ¬ c.domainTokens.isEmpty then
          domainJBucket (jaccardSimilarity (tokenizeDomain (getHost b.website)) c.domainTokens)
        else 0
      else 0) = _
    by_cases hh : extractHost b.website = ""
    · have hnil : domainTokens (extractHost b.website) = [] := by rw [hh]; decide
      rw [if_neg (show ¬ getHost b.website ≠ "" from by simpa [getHost] using hh)]
      rw [if_neg (show ¬ (¬ (domainTokens (extractHost b.website)).isEmpty = true ∧
        ¬ c.domainTokens.isEmpty = true) from fun hand => hand.1 (by rw [hnil]; rfl))]
    · rw [if_pos (show getHost b.website ≠ "" from by simpa [getHost] using hh)]
      by_cases hdt : domainTokens (extractHost b.website) = []
      · rw [if_neg (show ¬ (¬ (domainTokens (extractHost b.website)).isEmpty = true ∧
          ¬ c.domainTokens.isEmpty = true) from fun hand => hand.1 (by rw [hdt]; rfl))]
        have hj : jaccardSimilarity (tokenizeDomain (getHost b.website)) c.domainTokens = 0 := by
          show jaccard (domainTokens (extractHost b.website)) c.domainTokens = 0
          rw [hdt, jaccard_nil_left]
        rw [hj, show domainJBucket 0 = 0 from by decide]
        exact ite_self 0
      · by_cases hcd : c.domainTokens = []
        · rw [if_neg (show ¬ (¬ (domainTokens (extractHost b.website)).isEmpty = true ∧
            ¬ c.domainTokens.isEmpty = true) from fun hand => hand.2 (by rw [hcd]; rfl))]
          rw [if_neg (show ¬ ¬ c.domainTokens.isEmpty = true from by rw [hcd]; simp)]
        · rw [if_pos (show ¬ c.domainTokens.isEmpty = true from by simpa using hcd)]
          rw [if_pos (show ¬ (domainTokens (extractHost b.website)).isEmpty = true ∧
            ¬ c.domainTokens.isEmpty = true from ⟨by simpa using hdt, by simpa using hcd⟩)]
          rfl

theorem c10_phone (b : MatchBody) (c : AugProfile) (hno : "" ∉ c.last10Phones) :
    (if ¬ (inputForScore b).phones.isEmpty then
       if (inputForScore b).phones.any (fun q => decide (lastTenDigits q ∈ c.last10Phones))
       then (3 : ℚ) else 0
     else 0)
    = (if (preOf b).phone10 ≠ "" ∧ (preOf b).phone10 ∈ c.last10Phones then (3 : ℚ) else 0) := by
  by_cases hp : b.phone = ""
  · simp [inputForScore, preOf, hp]
  · have hip : (inputForScore b).phones = [b.phone] := by simp [inputForScore, hp]
    have hpre : (preOf b).phone10 = last10 b.phone := by simp [preOf, hp]
    rw [hip, hpre]
    by_cases hk : last10 b.phone = ""
    · have hmem : last10 b.phone ∉ c.last10Phones := fun hm => hno (hk ▸ hm)
      have hany : (([b.phone] : List String).any
          (fun q => decide (lastTenDigits q ∈ c.last10Phones))) = false := by
        simp only [List.any_cons, List.any_nil, Bool.or_false, decide_eq_false_iff_not]
        exact hmem
      rw [if_neg (show ¬ (last10 b.phone ≠ "" ∧ last10 b.phone ∈ c.last10Phones)
        from fun hand => hand.1 hk)]
      rw [if_pos (show ¬ ([b.phone] : List String).isEmpty = true from by simp)]
      rw [hany]
      simp
    · by_cases hm : last10 b.phone ∈ c.last10Phones
      · simp [lastTenDigits, hm, hk]
      · simp [lastTenDigits, hm, hk]

theorem c10_fb (b : MatchBody) (c : AugProfile) (hno : "" ∉ c.fbHandles) :
    (let inFb := strOr ((inputForScore b).fbList.headD "") (inputForScore b).fbDirect
     if inFb ≠ "" then
       if canonicalFacebook inFb ∈ c.fbHandles then (4 : ℚ) else 0
     else 0)
    = (if (preOf b).fbHandle ≠ "" ∧ (preOf b).fbHandle ∈ c.fbHandles then (4 : ℚ) else 0) := by
  by_cases hf : b.facebook = ""
  · simp [inputForScore, preOf, strOr, hf]
  · have h1 : (inputForScore b).fbList = [b.facebook] := by simp [inputForScore, hf]
    have h2 : (inputForScore b).fbDirect = "" := rfl
    have hpre : (preOf b).fbHandle = canonicalFacebook b.facebook := by simp [preOf, hf]
    rw [h1, h2, hpre]
    show (if strOr b.facebook "" ≠ "" then
        if canonicalFacebook (strOr b.facebook "") ∈ c.fbHandles then (4 : ℚ) else 0
      else 0) = _
    have hstr : strOr b.facebook "" = b.facebook := by unfold strOr; rw [if_pos hf]
    rw [hstr]
    by_cases hk : canonicalFacebook b.facebook = ""
    · have hmem : canonicalFacebook b.facebook ∉ c.fbHandles := fun hm => hno (hk ▸ hm)
      rw [if_pos hf, if_neg hmem,
        if_neg (show ¬ (canonicalFacebook b.facebook ≠ "" ∧
          canonicalFacebook b.facebook ∈ c.fbHandles) from fun hand => hand.1 hk)]
    · by_cases hm : canonicalFacebook b.facebook ∈ c.fbHandles
      · simp [hm, hk, hf]
      · simp [hm, hk, hf]

/-- Claim C10 (confirmed): for every zod-trimmed query with an optional name,
an optional website, at most one phone and at most one facebook URL, and every
augmented record derived by the feature builder, the exported reference scorer
scoreMatch on the raw query equals fastScore on the precomputed features. -/
theorem c10_theorem (b : MatchBody) (i : Nat) (p : Profile)
    (hname : jsTrim b.name = b.name) :
    scoreMatch (inputForScore b) (augmentProfile i p)
      = fastScore (preOf b) (augmentProfile i p) := by
  unfold scoreMatch fastScore
  rw [c10_web b (augmentProfile i p), c10_name b i p hname,
    c10_domain b (augmentProfile i p),
    c10_phone b (augmentProfile i p) (aug_empty_notin_phones i p),
    c10_fb b (augmentProfile i p) (aug_empty_notin_fb i p)]

/-- Claim C10 witness: the two scorers agree on a concrete full-signal query
against the concrete fixture record. -/
theorem c10_witness :
    jsTrim "Acme Inc" = "Acme Inc" ∧
    scoreMatch (inputForScore c1WitnessBody) (augmentProfile 0 acmeFixture)
      = fastScore (preOf c1WitnessBody) (augmentProfile 0 acmeFixture) :=
  ⟨by decide, c10_theorem c1WitnessBody 0 acmeFixture (by decide)⟩

/-- Claim C2 counterexample: two equal-score candidates that entered the
candidate list as catalog positions 5 then 2 keep that order under the
score-descending sort (the comparator has no tie-break key and the sort is
stable), so ties are not ordered by catalog position. -/
theorem c2_counterexample :
    ¬ tiesByCatalogPos SortKey.score SortDir.desc
      [⟨5, blankProfile, 1⟩, ⟨2, blankProfile, 1⟩] := by
  unfold tiesByCatalogPos
  decide

theorem mem_insertLE {α : Type} (cmp : α → α → ℚ) (x y : α) (l : List α) :
    y ∈ insertLE cmp x l ↔ y = x ∨ y ∈ l := by
  induction l with
  | nil => simp [insertLE]
  | cons z zs ih =>
    unfold insertLE
    split
    · simp
    · simp only [List.mem_cons, ih]
      tauto

theorem mem_jsSortBy {α : Type} (cmp : α → α → ℚ) (l : List α) (y : α) :
    y ∈ jsSortBy cmp l ↔ y ∈ l := by
  induction l with
  | nil => simp [jsSortBy]
  | cons z zs ih =>
    show y ∈ insertLE cmp z (jsSortBy cmp zs) ↔ _
    rw [mem_insertLE, ih]
    simp

theorem withPositions_fst {α : Type} (n : Nat) (l : List α) :
    ∀ q ∈ withPositions n l, n ≤ q.1 := by
  induction l generalizing n with
  | nil => intro q hq; simp [withPositions] at hq
  | cons x xs ih =>
    intro q hq
    rw [show withPositions n (x :: xs) = (n, x) :: withPositions (n + 1) xs from rfl,
      List.mem_cons] at hq
    rcases hq with hq | hq
    · simp [hq]
    · exact Nat.le_of_succ_le (ih (n + 1) q hq)

theorem map_snd_insertLE {α : Type} (cmp : α → α → ℚ) (i : Nat) (x : α)
    (acc : List (Nat × α)) (h : ∀ q ∈ acc, i < q.1) :
    (insertLE (posTieCmp cmp) (i, x) acc).map Prod.snd
      = insertLE cmp x (acc.map Prod.snd) := by
  induction acc with
  | nil => rfl
  | cons jy rest ih =>
    obtain ⟨j, y⟩ := jy
    have hij : i < j := h (j, y) (by simp)
    have hcond : (posTieCmp cmp (i, x) (j, y) ≤ 0) ↔ (cmp x y ≤ 0) := by
      unfold posTieCmp
      by_cases h0 : cmp x y = 0
      · rw [if_pos h0, h0, qsub_eq]
        constructor
        · intro _; exact le_refl 0
        · intro _
          have : ((i : ℚ) : ℚ) < (j : ℚ) := by exact_mod_cast hij
          linarith
      · rw [if_neg h0]
    show (insertLE (posTieCmp cmp) (i, x) ((j, y) :: rest)).map Prod.snd
      = insertLE cmp x (y :: rest.map Prod.snd)
    unfold insertLE
    by_cases hle : posTieCmp cmp (i, x) (j, y) ≤ 0
    · rw [if_pos hle, if_pos (hcond.mp hle)]
      rfl
    · rw [if_neg hle, if_neg (fun hc => hle (hcond.mpr hc))]
      rw [List.map_cons]
      rw [ih (fun q hq => h q (by simp [hq]))]

theorem jsSortBy_posTie {α : Type} (cmp : α → α → ℚ) (l : List α) (n : Nat) :
    (jsSortBy (posTieCmp cmp) (withPositions n l)).map Prod.snd = jsSortBy cmp l := by
  induction l generalizing n with
  | nil => rfl
  | cons x xs ih =>
    show (insertLE (posTieCmp cmp) (n, x)
      (jsSortBy (posTieCmp cmp) (withPositions (n + 1) xs))).map Prod.snd = _
    rw [map_snd_insertLE cmp n x _ (fun q hq =>
      Nat.lt_of_succ_le (withPositions_fst (n + 1) xs q
        ((mem_jsSortBy (posTieCmp cmp) (withPositions (n + 1) xs) q).mp hq)))]
    rw [ih (n + 1)]
    rfl

/-- Claim C2 (corrected) as amended: under every sort mode and direction the
Ranker's sort is the stable sort by the mode's comparator, which is exactly a
sort whose final tie-break key is the candidate's position in the pre-sort
candidate list; catalog position is not a tie-break key. -/
theorem c2_theorem (k : SortKey) (d : SortDir) (l : List Scored) :
    jsSortBy (cmpFor k d) l
      = (jsSortBy (posTieCmp (cmpFor k d)) (withPositions 0 l)).map Prod.snd :=
  (jsSortBy_posTie (cmpFor k d) l 0).symm

/-- Claim C3 (confirmed): whenever the signal-union tier produced a non-empty
candidate set in which every scored candidate has score exactly zero, the
engine falls through to fuzzy text search: the strict tier's top 10 when that
is non-empty, else the loose tier's top 10, each hit scored
max(0.1, (1 - rawDistance) * 0.5) where rawDistance is the engine's distance. -/
theorem c3_theorem (O : Oracles) (aps : List AugProfile) (MBF : Nat) (b : MatchBody)
    (scored : List Scored)
    (_hne : scored ≠ [])
    (hzero : ∀ s ∈ scored, s.score = 0)
    (hq : queryPresent b = true) :
    (O.fuse (joinQuery b) ≠ [] →
      safetyNetStage O aps MBF b scored
        = ((O.fuse (joinQuery b)).take 10).map (fun r =>
            ⟨r.refIndex, (getAug aps r.refIndex).base, fuzzyTierScore r⟩)) ∧
    (O.fuse (joinQuery b) = [] → O.fuseLoose (joinQuery b) ≠ [] →
      safetyNetStage O aps MBF b scored
        = ((O.fuseLoose (joinQuery b)).take 10).map (fun r =>
            ⟨r.refIndex, (getAug aps r.refIndex).base, fuzzyTierScore r⟩)) := by
  have hall : scored.all (fun s => s.score == 0) = true :=
    List.all_eq_true.mpr (fun s hs => by
      simpa using hzero s hs)
  have hcond : ((scored.isEmpty || scored.all (fun s => s.score == 0)) && queryPresent b)
      = true := by
    rw [hq, hall, Bool.and_true, Bool.or_true]
  constructor
  · intro hf
    have htake : (O.fuse (joinQuery b)).take 10 ≠ [] := by
      simp [List.take_eq_nil_iff, hf]
    have hie : ((O.fuse (joinQuery b)).take 10).isEmpty = false := by
      simpa using htake
    unfold safetyNetStage
    rw [if_pos hcond]
    simp only [hie, Bool.false_eq_true, if_false, Bool.not_false, if_true, fuzzyTierScore]
  · intro hf hl
    have htake : (O.fuse (joinQuery b)).take 10 = [] := by rw [hf]; rfl
    have hie : ((O.fuse (joinQuery b)).take 10).isEmpty = true := by rw [htake]; rfl
    have htakeL : (O.fuseLoose (joinQuery b)).take 10 ≠ [] := by
      simp [List.take_eq_nil_iff, hl]
    have hieL : ((O.fuseLoose (joinQuery b)).take 10).isEmpty = false := by
      simpa using htakeL
    unfold safetyNetStage
    rw [if_pos hcond]
    simp only [hie, if_true, hieL, Bool.false_eq_true, if_false, Bool.not_false, fuzzyTierScore]

/-- Claim C3 witness: the safety net at a concrete all-zero scored list and a
concrete strict-tier hit with raw distance 1/5. -/
theorem c3_witness :
    (([⟨0, blankProfile, 0⟩] : List Scored) ≠ [] ∧
      (∀ s ∈ ([⟨0, blankProfile, 0⟩] : List Scored), s.score = 0) ∧
      queryPresent { name := "acme" } = true) ∧
    ((c3Oracles.fuse (joinQuery { name := "acme" }) ≠ [] →
      safetyNetStage c3Oracles [] 5000 { name := "acme" } [⟨0, blankProfile, 0⟩]
        = ((c3Oracles.fuse (joinQuery { name := "acme" })).take 10).map (fun r =>
            ⟨r.refIndex, (getAug [] r.refIndex).base, fuzzyTierScore r⟩)) ∧
    (c3Oracles.fuse (joinQuery { name := "acme" }) = [] →
      c3Oracles.fuseLoose (joinQuery { name := "acme" }) ≠ [] →
      safetyNetStage c3Oracles [] 5000 { name := "acme" } [⟨0, blankProfile, 0⟩]
        = ((c3Oracles.fuseLoose (joinQuery { name := "acme" })).take 10).map (fun r =>
            ⟨r.refIndex, (getAug [] r.refIndex).base, fuzzyTierScore r⟩))) :=
  ⟨⟨by decide, by decide, by decide⟩,
    c3_theorem c3Oracles [] 5000 { name := "acme" } [⟨0, blankProfile, 0⟩]
      (by decide) (by decide) (by decide)⟩

theorem le_jsCeilDiv_mul (a b : Nat) (hb : 0 < b) : a ≤ jsCeilDiv a b * b := by
  unfold jsCeilDiv
  have key := Nat.div_add_mod (a + b - 1) b
  have hmod : (a + b - 1) % b < b := Nat.mod_lt _ hb
  have hbz : b * ((a + b - 1) / b) = (a + b - 1) / b * b := Nat.mul_comm _ _
  omega

theorem jsCeilDiv_mul_lt (a b : Nat) (hb : 0 < b) (ha : 0 < a) :
    (jsCeilDiv a b - 1) * b < a := by
  unfold jsCeilDiv
  have key : (a + b - 1) / b * b ≤ a + b - 1 := Nat.div_mul_le_self _ _
  have hz : 0 < (a + b - 1) / b := by
    apply Nat.div_pos
    · omega
    · exact hb
  have expand : ((a + b - 1) / b - 1) * b = (a + b - 1) / b * b - b := Nat.sub_one_mul _ _ ▸ by
    rw [Nat.sub_mul, Nat.one_mul]
  omega

theorem jsCeilDiv_eq_ceil (a b : Nat) (hb : 0 < b) :
    (jsCeilDiv a b : ℤ) = ⌈(a : ℚ) / (b : ℚ)⌉ := by
  have hbq : (0 : ℚ) < (b : ℚ) := by exact_mod_cast hb
  symm
  rw [Int.ceil_eq_iff]
  refine ⟨?_, ?_⟩
  · show ((jsCeilDiv a b : ℤ) : ℚ) - 1 < (a : ℚ) / b
    rcases Nat.eq_zero_or_pos a with ha | ha
    · subst ha
      have hz : jsCeilDiv 0 b = 0 := by
        unfold jsCeilDiv
        exact Nat.div_eq_of_lt (by omega)
      rw [hz]
      norm_num
    · have h1 : 1 ≤ jsCeilDiv a b := by
        unfold jsCeilDiv
        exact (Nat.one_le_div_iff hb).mpr (by omega)
      have h2 : (jsCeilDiv a b - 1) * b < a := jsCeilDiv_mul_lt a b hb ha
      have h2q : ((jsCeilDiv a b : ℚ) - 1) * (b : ℚ) < (a : ℚ) := by
        have hc : ((jsCeilDiv a b - 1 : ℕ) : ℚ) = (jsCeilDiv a b : ℚ) - 1 := by
          push_cast [Nat.cast_sub h1]
          ring
        calc ((jsCeilDiv a b : ℚ) - 1) * (b : ℚ)
            = ((jsCeilDiv a b - 1 : ℕ) : ℚ) * (b : ℚ) := by rw [hc]
          _ < (a : ℚ) := by exact_mod_cast h2
      rw [lt_div_iff hbq]
      push_cast
      exact h2q
  · show (a : ℚ) / b ≤ ((jsCeilDiv a b : ℤ) : ℚ)
    rw [div_le_iff hbq]
    have h := le_jsCeilDiv_mul a b hb
    push_cast
    exact_mod_cast h

theorem join_chunks {α : Type} (pp : Nat) (l : List α) (m : Nat)
    (hm : l.length ≤ m * pp) :
    ((List.range m).map (fun k => (l.drop (k * pp)).take pp)).flatten = l := by
  induction m generalizing l with
  | zero =>
    have h0 : l = [] := List.eq_nil_of_length_eq_zero (by omega)
    simp [h0]
  | succ m ih =>
    rw [List.range_succ_eq_map, List.map_cons, List.map_map, List.flatten_cons]
    have hmap : (List.range m).map ((fun k => (l.drop (k * pp)).take pp) ∘ Nat.succ)
        = (List.range m).map (fun k => ((l.drop pp).drop (k * pp)).take pp) := by
      apply List.map_congr_left
      intro k _
      show (l.drop ((k + 1) * pp)).take pp = ((l.drop pp).drop (k * pp)).take pp
      rw [List.drop_drop]
      congr 2
      ring
    rw [hmap, ih (l.drop pp) (by rw [List.length_drop, Nat.succ_mul] at *; omega)]
    rw [show (0 : ℕ) * pp = 0 from by ring, List.drop_zero]
    exact List.take_append_drop pp l

theorem finalize_candidates_eq (O : Oracles) (names : List NameRow) (b : MatchBody)
    (scored : List Scored) :
    (finalizeStage O names b scored).candidates
      = jsSlice (rankedList O names b scored)
          (((finalizeStage O names b scored).meta.page - 1)
            * (finalizeStage O names b scored).meta.perPage)
          ((((finalizeStage O names b scored).meta.page - 1)
            * (finalizeStage O names b scored).meta.perPage)
            + (finalizeStage O names b scored).meta.perPage) := rfl

theorem jsSlice_length_le {α : Type} (l : List α) (s n : Nat) :
    (jsSlice l s (s + n)).length ≤ n := by
  unfold jsSlice
  rw [List.length_take]
  omega

/-- C8: for every request, perPage is clamped into [5, 50], totalPages equals
max(1, ceiling(total / perPage)), the returned page is clamped into
[1, totalPages], the returned candidate page holds at most perPage entries, and
concatenating the candidate pages of all pages 1..totalPages in order
reproduces the full filtered, sorted list exactly. -/
theorem c8_theorem (O : Oracles) (names : List NameRow) (b : MatchBody)
    (scored : List Scored) :
    (5 ≤ (finalizeStage O names b scored).meta.perPage ∧
      (finalizeStage O names b scored).meta.perPage ≤ 50) ∧
    ((finalizeStage O names b scored).meta.totalPages : ℤ)
      = max 1 ⌈((finalizeStage O names b scored).meta.total : ℚ)
          / ((finalizeStage O names b scored).meta.perPage : ℚ)⌉ ∧
    (1 ≤ (finalizeStage O names b scored).meta.page ∧
      (finalizeStage O names b scored).meta.page
        ≤ (finalizeStage O names b scored).meta.totalPages) ∧
    (finalizeStage O names b scored).candidates.length
      ≤ (finalizeStage O names b scored).meta.perPage ∧
    ((List.range (finalizeStage O names b scored).meta.totalPages).map (fun (k : Nat) =>
        (finalizeStage O names { b with page := some ((k : Int) + 1) } scored).candidates)).flatten
      = rankedList O names b scored := by
  have hz5 : (5 : ℤ) ≤ min 50 (max 5 (jsNumOr b.perPage 10)) :=
    le_min (by norm_num) (le_max_left _ _)
  have hz50 : min 50 (max 5 (jsNumOr b.perPage 10)) ≤ 50 := min_le_left _ _
  set pp : ℕ := (min 50 (max 5 (jsNumOr b.perPage 10))).toNat with hppdef
  have hpp5 : 5 ≤ pp := by omega
  have hpp50 : pp ≤ 50 := by omega
  have hpp0 : 0 < pp := by omega
  set list : List Scored := rankedList O names b scored with hlistdef
  set total : ℕ := list.length with htotaldef
  set tp : ℕ := max 1 (jsCeilDiv total pp) with htpdef
  have epp : (finalizeStage O names b scored).meta.perPage = pp := rfl
  have etp : (finalizeStage O names b scored).meta.totalPages = tp := rfl
  have etotal : (finalizeStage O names b scored).meta.total = total := rfl
  have epg : (finalizeStage O names b scored).meta.page
      = min ((max 1 (jsNumOr b.page 1)).toNat) tp := rfl
  refine ⟨⟨by rw [epp]; exact hpp5, by rw [epp]; exact hpp50⟩, ?_, ⟨?_, ?_⟩, ?_, ?_⟩
  · rw [epp, etp, etotal, htpdef]
    push_cast [Nat.cast_max]
    rw [jsCeilDiv_eq_ceil total pp hpp0]
  · rw [epg]
    have hpg1 : 1 ≤ (max 1 (jsNumOr b.page 1)).toNat := by
      have : (1 : ℤ) ≤ max 1 (jsNumOr b.page 1) := le_max_left _ _
      omega
    exact Nat.le_min.mpr ⟨hpg1, le_max_left _ _⟩
  · rw [epg, etp]
    exact min_le_right _ _
  · rw [epp]
    exact jsSlice_length_le list
      ((min ((max 1 (jsNumOr b.page 1)).toNat) tp - 1) * pp) pp
  · rw [etp]
    show ((List.range tp).map (fun (k : Nat) =>
        (finalizeStage O names { b with page := some ((k : Int) + 1) } scored).candidates)).flatten
      = list
    have hcand : ∀ k, k < tp →
        (finalizeStage O names { b with page := some ((k : Int) + 1) } scored).candidates
          = (list.drop (k * pp)).take pp := by
      intro k hk
      have hnum : jsNumOr (some ((k : Int) + 1)) 1 = (k : Int) + 1 := by
        simp only [jsNumOr, Option.getD_some]
        rw [if_neg (show ¬ ((k : Int) + 1 = 0) from by omega)]
      have hclamp : min ((max 1 (jsNumOr (some ((k : Int) + 1)) 1)).toNat) tp = k + 1 := by
        rw [hnum]
        have hx : (max 1 ((k : Int) + 1)).toNat = k + 1 := by omega
        rw [hx]
        exact Nat.min_eq_left (by omega)
      show jsSlice list
          ((min ((max 1 (jsNumOr (some ((k : Int) + 1)) 1)).toNat) tp - 1) * pp)
          (((min ((max 1 (jsNumOr (some ((k : Int) + 1)) 1)).toNat) tp - 1) * pp) + pp)
        = (list.drop (k * pp)).take pp
      rw [hclamp]
      unfold jsSlice
      rw [Nat.add_sub_cancel, Nat.add_sub_cancel_left]
    have hmapeq : (List.range tp).map (fun (k : Nat) =>
          (finalizeStage O names { b with page := some ((k : Int) + 1) } scored).candidates)
        = (List.range tp).map (fun (k : Nat) => (list.drop (k * pp)).take pp) :=
      List.map_congr_left (fun k hk => hcand k (List.mem_range.mp hk))
    rw [hmapeq]
    refine join_chunks pp list tp ?_
    calc list.length = total := rfl
      _ ≤ jsCeilDiv total pp * pp := le_jsCeilDiv_mul total pp hpp0
      _ ≤ tp * pp := Nat.mul_le_mul_right pp (le_max_right _ _)

theorem insertLE_length {α : Type} (cmp : α → α → ℚ) (x : α) (l : List α) :
    (insertLE cmp x l).length = l.length + 1 := by
  induction l with
  | nil => rfl
  | cons y ys ih =>
    unfold insertLE
    by_cases h : cmp x y ≤ 0
    · rw [if_pos h]; rfl
    · rw [if_neg h, List.length_cons, ih, List.length_cons]

theorem jsSortBy_length {α : Type} (cmp : α → α → ℚ) (l : List α) :
    (jsSortBy cmp l).length = l.length := by
  induction l with
  | nil => rfl
  | cons y ys ih =>
    show (insertLE cmp y (jsSortBy cmp ys)).length = ys.length + 1
    rw [insertLE_length, ih]

theorem take_ne_nil_of_ne_nil {α : Type} (l : List α) (n : Nat) (hl : l ≠ []) (hn : 0 < n) :
    l.take n ≠ [] := by
  apply List.ne_nil_of_length_pos
  rw [List.length_take]
  have := List.length_pos.mpr hl
  omega

theorem withPositions_length {α : Type} (n : Nat) (l : List α) :
    (withPositions n l).length = l.length := by
  induction l generalizing n with
  | nil => rfl
  | cons x xs ih =>
    show (withPositions (n + 1) xs).length + 1 = xs.length + 1
    rw [ih]

theorem collectStrided_ne_nil (N step cap : Nat) (hN : 0 < N) (hcap : 0 < cap) :
    collectStrided N step 0 cap ≠ [] := by
  obtain ⟨c, rfl⟩ : ∃ c, cap = c + 1 := ⟨cap - 1, by omega⟩
  show collectStrided N step 0 (c + 1) ≠ []
  unfold collectStrided
  rw [if_pos hN]
  simp

theorem bruteForce_ne_nil (aps : List AugProfile) (pre : PreQ) (MBF : Nat)
    (haps : aps ≠ []) (hMBF : 1 ≤ MBF) : bruteForce aps pre MBF ≠ [] := by
  have hN : 0 < aps.length := List.length_pos.mpr haps
  have hcap : 0 < min MBF aps.length := by omega
  simp only [bruteForce]
  by_cases hlt : min MBF aps.length < aps.length
  · rw [if_pos hlt]
    apply take_ne_nil_of_ne_nil _ _ _ (by omega)
    apply List.ne_nil_of_length_pos
    rw [jsSortBy_length, List.length_map]
    exact List.length_pos.mpr (collectStrided_ne_nil _ _ _ hN hcap)
  · rw [if_neg hlt]
    apply take_ne_nil_of_ne_nil _ _ _ (by omega)
    apply List.ne_nil_of_length_pos
    rw [jsSortBy_length, List.length_map]
    exact hN

theorem safetyNetStage_ne_nil (O : Oracles) (aps : List AugProfile) (MBF : Nat)
    (b : MatchBody) (scored : List Scored) (hq : queryPresent b = true)
    (haps : aps ≠ []) (hMBF : 1 ≤ MBF) :
    safetyNetStage O aps MBF b scored ≠ [] := by
  by_cases hg : ((scored.isEmpty || scored.all (fun s => s.score == 0)) && queryPresent b) = true
  · simp only [safetyNetStage]
    rw [if_pos hg]
    set f1 := (O.fuse (joinQuery b)).take 10 with hf1
    set f2 := if f1.isEmpty = true then (O.fuseLoose (joinQuery b)).take 10 else f1 with hf2
    by_cases hfe : f2.isEmpty = true
    · rw [if_neg (show ¬ ((!f2.isEmpty) = true) from by simp [hfe])]
      exact bruteForce_ne_nil aps (preOf b) MBF haps hMBF
    · rw [if_pos (show (!f2.isEmpty) = true from by simp [Bool.not_eq_true] at hfe ⊢; exact hfe)]
      intro hmap
      exact hfe (by rw [List.map_eq_nil_iff.mp hmap]; rfl)
  · simp only [safetyNetStage]
    rw [if_neg hg]
    intro hcontra
    exact hg (by rw [hcontra]; simp [hq])

theorem rankedList_no_filters (O : Oracles) (names : List NameRow) (b : MatchBody)
    (scored : List Scored) (hms : b.minScore = none) (hc : b.contains = "")
    (hs : scored ≠ []) :
    rankedList O names b scored
      = jsSortBy (cmpFor (b.sortKey.getD SortKey.score) (b.sortDir.getD SortDir.desc)) scored := by
  obtain ⟨x, xs, rfl⟩ : ∃ x xs, scored = x :: xs := by
    cases scored with
    | nil => exact absurd rfl hs
    | cons x xs => exact ⟨x, xs, rfl⟩
  unfold rankedList
  rw [hms, hc]
  rfl

theorem jsSlice_ne_nil {α : Type} (l : List α) (s n : Nat) (hs : s < l.length)
    (hn : 0 < n) : jsSlice l s (s + n) ≠ [] := by
  unfold jsSlice
  apply List.ne_nil_of_length_pos
  rw [List.length_take, List.length_drop]
  omega

theorem finalizeStage_candidates_ne_nil (O : Oracles) (names : List NameRow)
    (b : MatchBody) (scored : List Scored) (hms : b.minScore = none)
    (hc : b.contains = "") (hs : scored ≠ []) :
    (finalizeStage O names b scored).candidates ≠ [] := by
  have hz5 : (5 : ℤ) ≤ min 50 (max 5 (jsNumOr b.perPage 10)) :=
    le_min (by norm_num) (le_max_left _ _)
  set pp : ℕ := (min 50 (max 5 (jsNumOr b.perPage 10))).toNat with hppdef
  have hpp0 : 0 < pp := by omega
  set list : List Scored := rankedList O names b scored with hlistdef
  have hlen : 0 < list.length := by
    rw [hlistdef, rankedList_no_filters O names b scored hms hc hs, jsSortBy_length]
    exact List.length_pos.mpr hs
  set total : ℕ := list.length with htotaldef
  set tp : ℕ := max 1 (jsCeilDiv total pp) with htpdef
  have hceil : 1 ≤ jsCeilDiv total pp := by
    by_contra h
    have h0 : jsCeilDiv total pp = 0 := by omega
    have hub := le_jsCeilDiv_mul total pp hpp0
    rw [h0] at hub
    omega
  have htpe : tp = jsCeilDiv total pp := by rw [htpdef]; omega
  have hstart : (min ((max 1 (jsNumOr b.page 1)).toNat) tp - 1) * pp < total := by
    have h1 : min ((max 1 (jsNumOr b.page 1)).toNat) tp - 1 ≤ tp - 1 := by omega
    calc (min ((max 1 (jsNumOr b.page 1)).toNat) tp - 1) * pp
        ≤ (tp - 1) * pp := Nat.mul_le_mul_right pp h1
      _ < total := by rw [htpe]; exact jsCeilDiv_mul_lt total pp hpp0 hlen
  have epp : (finalizeStage O names b scored).meta.perPage = pp := rfl
  have epg : (finalizeStage O names b scored).meta.page
      = min ((max 1 (jsNumOr b.page 1)).toNat) tp := rfl
  rw [finalize_candidates_eq, epp, epg]
  exact jsSlice_ne_nil list ((min ((max 1 (jsNumOr b.page 1)).toNat) tp - 1) * pp) pp
    hstart hpp0

/-- C4: for every non-empty query (at least one of name, website, phone,
facebook present) against a non-empty catalog, with no minimum-score floor and
no substring filter, the response's candidate list is non-empty: the
safety-net cascade (fuzzy strict, fuzzy loose, brute force over the catalog or
a strided sample) always produces at least one candidate, the Ranker applies
no filters, and the clamped page always intersects the list. -/
theorem c4_theorem (O : Oracles) (ps : List Profile) (MC MBF : Nat)
    (names : List NameRow) (b : MatchBody)
    (hq : queryPresent b = true) (hps : ps ≠ [])
    (hms : b.minScore = none) (hc : b.contains = "") (hMBF : 1 ≤ MBF) :
    (matchPipeline O ps MC MBF names b).candidates ≠ [] := by
  have haps : augAll ps ≠ [] := by
    apply List.ne_nil_of_length_pos
    unfold augAll
    rw [List.length_map, withPositions_length]
    exact List.length_pos.mpr hps
  show (finalizeStage O names b
      (safetyNetStage O (augAll ps) MBF b (scoredInitial O (augAll ps) MC b))).candidates ≠ []
  exact finalizeStage_candidates_ne_nil O names b _ hms hc
    (safetyNetStage_ne_nil O (augAll ps) MBF b _ hq haps hMBF)

theorem c4_witness :
    queryPresent { name := "Acme Inc" } = true ∧
    ([acmeFixture] : List Profile) ≠ [] ∧
    (matchPipeline emptyOracles [acmeFixture] 2000 5000 [] { name := "Acme Inc" }).candidates
      ≠ [] :=
  ⟨by decide, by decide,
    c4_theorem emptyOracles [acmeFixture] 2000 5000 [] { name := "Acme Inc" }
      (by decide) (by decide) rfl rfl (by decide)⟩

theorem jsCharLower_ne (t : Char) (ht : ∀ q ∈ upperLowerTable, q.2 ≠ t)
    (c : Char) (h : jsCharLower c = t) : c = t := by
  unfold jsCharLower at h
  cases hf : upperLowerTable.find? (fun p => p.1 == c) with
  | none => rw [hf] at h; simpa using h
  | some p =>
    rw [hf] at h
    simp only [Option.map_some', Option.getD_some] at h
    exact absurd h (ht p (List.mem_of_find?_eq_some hf))

theorem mem_of_mem_jsLowerL (t : Char) (ht : ∀ q ∈ upperLowerTable, q.2 ≠ t)
    (l : List Char) (h : t ∈ jsLowerL l) : t ∈ l := by
  obtain ⟨c, hc, he⟩ := List.mem_map.mp h
  rwa [jsCharLower_ne t ht c he] at hc

theorem startsWithCIL_eq_false (l pat : List Char) (t : Char) (htp : t ∈ pat)
    (ht : ∀ q ∈ upperLowerTable, q.2 ≠ t) (hnl : t ∉ l) :
    startsWithCIL l pat = false := by
  cases hb : startsWithCIL l pat with
  | false => rfl
  | true =>
    exfalso
    unfold startsWithCIL at hb
    exact hnl (mem_of_mem_jsLowerL t ht l ((List.isPrefixOf_iff_prefix.mp hb).subset htp))

theorem replaceFirstCIL_id (pat repl l : List Char) (t : Char) (htp : t ∈ pat)
    (ht : ∀ q ∈ upperLowerTable, q.2 ≠ t) (hnl : t ∉ l) :
    replaceFirstCIL pat repl l = l := by
  induction l with
  | nil => rfl
  | cons c cs ih =>
    unfold replaceFirstCIL
    have hcond : ¬ (pat.isPrefixOf (jsLowerL (c :: cs)) = true) := fun hb =>
      hnl (mem_of_mem_jsLowerL t ht (c :: cs) ((List.isPrefixOf_iff_prefix.mp hb).subset htp))
    rw [if_neg hcond, ih (fun hmem => hnl (List.mem_cons_of_mem c hmem))]

theorem occursL_eq_false (pat l : List Char) (t : Char) (htp : t ∈ pat)
    (hnl : t ∉ l) : occursL pat l = false := by
  induction l with
  | nil =>
    cases pat with
    | nil => exact absurd htp (List.not_mem_nil t)
    | cons p ps => rfl
  | cons c cs ih =>
    unfold occursL
    have h1 : pat.isPrefixOf (c :: cs) = false := by
      cases hb : pat.isPrefixOf (c :: cs) with
      | false => rfl
      | true => exact absurd ((List.isPrefixOf_iff_prefix.mp hb).subset htp) hnl
    rw [h1, Bool.false_or]
    exact ih (fun hm => hnl (List.mem_cons_of_mem c hm))

theorem takeWhile_all {α : Type} (p : α → Bool) (l : List α)
    (h : ∀ a ∈ l, p a = true) : l.takeWhile p = l := by
  induction l with
  | nil => rfl
  | cons a as ih =>
    rw [List.takeWhile_cons, h a (List.mem_cons_self a as), if_pos rfl,
      ih (fun b hb => h b (List.mem_cons_of_mem a hb))]

theorem dropWhile_all {α : Type} (p : α → Bool) (l : List α)
    (h : ∀ a ∈ l, p a = true) : l.dropWhile p = [] := by
  induction l with
  | nil => rfl
  | cons a as ih =>
    rw [List.dropWhile_cons, if_pos (by rw [h a (List.mem_cons_self a as)]),
      ih (fun b hb => h b (List.mem_cons_of_mem a hb))]

theorem takeWhile_append_all {α : Type} (p : α → Bool) (l1 l2 : List α)
    (h : ∀ a ∈ l1, p a = true) :
    (l1 ++ l2).takeWhile p = l1 ++ l2.takeWhile p := by
  induction l1 with
  | nil => rfl
  | cons a as ih =>
    rw [List.cons_append, List.takeWhile_cons, h a (List.mem_cons_self a as), if_pos rfl,
      ih (fun b hb => h b (List.mem_cons_of_mem a hb)), List.cons_append]

theorem dropWhile_append_all {α : Type} (p : α → Bool) (l1 l2 : List α)
    (h : ∀ a ∈ l1, p a = true) :
    (l1 ++ l2).dropWhile p = l2.dropWhile p := by
  induction l1 with
  | nil => rfl
  | cons a as ih =>
    rw [List.cons_append, List.dropWhile_cons, if_pos (by rw [h a (List.mem_cons_self a as)]),
      ih (fun b hb => h b (List.mem_cons_of_mem a hb))]

theorem dropWhile_none {α : Type} (p : α → Bool) (l : List α)
    (h : ∀ a ∈ l, p a = false) : l.dropWhile p = l := by
  induction l with
  | nil => rfl
  | cons a as ih =>
    rw [List.dropWhile_cons,
      if_neg (by rw [h a (List.mem_cons_self a as)]; exact Bool.false_ne_true)]

theorem afterLastAmp_all (l : List Char) (h : '@' ∉ l) : afterLastAmp l = l := by
  unfold afterLastAmp
  rw [takeWhile_all _ _ (fun c hc => by
    have hcl : c ∈ l := List.mem_reverse.mp hc
    have hne : c ≠ '@' := fun he => h (he ▸ hcl)
    exact bne_iff_ne.mpr hne), List.reverse_reverse]

theorem map_self_of {α : Type} (f : α → α) (l : List α) (h : ∀ a ∈ l, f a = a) :
    l.map f = l := by
  conv_rhs => rw [← List.map_id l]
  exact List.map_congr_left h

theorem jsTrimL_id (l : List Char) (h : ∀ c ∈ l, jsIsWS c = false) : jsTrimL l = l := by
  unfold jsTrimL
  rw [dropWhile_none _ _ h,
    dropWhile_none _ _ (fun c hc => h c (List.mem_reverse.mp hc)), List.reverse_reverse]

theorem collapseSlashesL_no_slash (l : List Char) (h : '/' ∉ l) :
    collapseSlashesL l = l := by
  induction l with
  | nil => rfl
  | cons a tail ih =>
    cases tail with
    | nil => rfl
    | cons b cs =>
      show (if a == '/' && b == '/' then collapseSlashesL (b :: cs)
        else a :: collapseSlashesL (b :: cs)) = a :: b :: cs
      have ha : (a == '/') = false :=
        beq_eq_false_iff_ne.mpr (fun he => h (he ▸ List.mem_cons_self a (b :: cs)))
      rw [ha, Bool.false_and, if_neg Bool.false_ne_true,
        ih (fun hm => h (List.mem_cons_of_mem a hm))]

theorem splitOnCharL_no_sep (sep : Char) (l : List Char) (h : sep ∉ l) :
    splitOnCharL sep l = [l] := by
  induction l with
  | nil => rfl
  | cons c cs ih =>
    have hc : (c == sep) = false :=
      beq_eq_false_iff_ne.mpr (fun he => h (he ▸ List.mem_cons_self c cs))
    show (if c == sep then [] :: splitOnCharL sep cs
      else match splitOnCharL sep cs with
        | h :: t => (c :: h) :: t
        | [] => [[c]]) = [c :: cs]
    rw [hc, if_neg Bool.false_ne_true, ih (fun hm => h (List.mem_cons_of_mem c hm))]

theorem parseHttpUrl_bare (s : List Char) (hne : s ≠ [])
    (hforb : ∀ c ∈ s, forbiddenHostChar c = false) :
    parseHttpUrlL ("https://".data ++ s) = some ⟨⟨jsLowerL s⟩, ⟨[]⟩⟩ := by
  have hnotmem : ∀ t : Char, forbiddenHostChar t = true → t ∉ s := fun t htt hm => by
    rw [hforb t hm] at htt
    exact Bool.false_ne_true htt
  have hstart : startsWithCIL ("https://".data ++ s) "https://".data = true := by
    unfold startsWithCIL jsLowerL
    rw [List.map_append]
    rw [show "https://".data.map jsCharLower = "https://".data from by decide]
    exact List.isPrefixOf_iff_prefix.mpr ((List.prefix_append _ _).trans
      (List.prefix_append _ _))
  have hdrop : ("https://".data ++ s).drop 8 = s := by
    rw [show (8 : ℕ) = "https://".data.length from rfl, List.drop_left]
  have hauthf : ∀ c ∈ s, (!(authTermChar c)) = true := by
    intro c hc
    have h1 : c ≠ '/' := fun he => hnotmem '/' (by decide) (he ▸ hc)
    have h2 : c ≠ '\\' := fun he => hnotmem '\\' (by decide) (he ▸ hc)
    have h3 : c ≠ '?' := fun he => hnotmem '?' (by decide) (he ▸ hc)
    have h4 : c ≠ '#' := fun he => hnotmem '#' (by decide) (he ▸ hc)
    simp [authTermChar, h1, h2, h3, h4]
  have hauth : s.takeWhile (fun c => !(authTermChar c)) = s := takeWhile_all _ s hauthf
  have hdropw : s.dropWhile (fun c => !(authTermChar c)) = [] := dropWhile_all _ s hauthf
  have hala : afterLastAmp s = s := afterLastAmp_all s (hnotmem '@' (by decide))
  have hcolonf : ∀ c ∈ s, (c != ':') = true := by
    intro c hc
    have h1 : c ≠ ':' := fun he => hnotmem ':' (by decide) (he ▸ hc)
    exact bne_iff_ne.mpr h1
  have hhost : s.takeWhile (fun c => c != ':') = s := takeWhile_all _ s hcolonf
  have hport : s.dropWhile (fun c => c != ':') = [] := dropWhile_all _ s hcolonf
  have hempty : s.isEmpty = false := by
    cases s with
    | nil => exact absurd rfl hne
    | cons a as => rfl
  have hany : s.any forbiddenHostChar = false := by
    rw [List.any_eq_false]
    intro c hc
    rw [hforb c hc]
    exact Bool.false_ne_true
  simp only [parseHttpUrlL]
  rw [if_pos hstart, hdrop]
  simp only [hauth, hdropw, hala, hhost, hport, hempty, hany]
  rfl

theorem canonicalUrl_id_of_safe (s : String) (hsafe : bareHostSafe s = true) :
    canonicalUrl s = s := by
  unfold bareHostSafe at hsafe
  simp only [Bool.and_eq_true, Bool.not_eq_true', beq_iff_eq, List.all_eq_true] at hsafe
  obtain ⟨⟨⟨hne, hforb'⟩, hlow⟩, hwww⟩ := hsafe
  have hforb : ∀ c ∈ s.data, forbiddenHostChar c = false := hforb'
  have hnil : s.data ≠ [] := fun h => by rw [h] at hne; exact absurd hne (by decide)
  have hnotmem : ∀ t : Char, forbiddenHostChar t = true → t ∉ s.data := fun t htt hm => by
    rw [hforb t hm] at htt
    exact Bool.false_ne_true htt
  have hcolon : ':' ∉ s.data := hnotmem ':' (by decide)
  have hslash : '/' ∉ s.data := hnotmem '/' (by decide)
  have hws : ∀ c ∈ s.data, jsIsWS c = false := by
    intro c hc
    cases hj : jsIsWS c with
    | false => rfl
    | true =>
      exfalso
      have hf : forbiddenHostChar c = true := by
        simp only [jsIsWS, Bool.or_eq_true, beq_iff_eq] at hj
        rcases hj with ((((rfl | rfl) | rfl) | rfl) | rfl) | rfl <;> decide
      rw [hforb c hc] at hf
      exact Bool.false_ne_true hf
  have h1 : preSanitizeUrlL s.data = s.data := by
    simp only [preSanitizeUrlL]
    rw [jsTrimL_id s.data hws]
    rw [if_neg (ne_true_of_eq_false (startsWithCIL_eq_false s.data
      "https://https://".data ':' (by decide) (by decide) hcolon))]
    rw [if_neg (ne_true_of_eq_false (startsWithCIL_eq_false s.data
      "https://http://".data ':' (by decide) (by decide) hcolon))]
    rw [if_neg (ne_true_of_eq_false (startsWithCIL_eq_false s.data
      "http://https://".data ':' (by decide) (by decide) hcolon))]
    rw [if_neg (ne_true_of_eq_false (startsWithCIL_eq_false s.data
      "http://http://".data ':' (by decide) (by decide) hcolon))]
    rw [replaceFirstCIL_id "://https//".data "://".data s.data ':' (by decide) (by decide) hcolon]
    rw [replaceFirstCIL_id "://http//".data "://".data s.data ':' (by decide) (by decide) hcolon]
    rw [if_neg (ne_true_of_eq_false (startsWithCIL_eq_false s.data
      "https//".data '/' (by decide) (by decide) hslash))]
    rw [if_neg (ne_true_of_eq_false (startsWithCIL_eq_false s.data
      "http//".data '/' (by decide) (by decide) hslash))]
  have hcore : canonicalUrlL s.data = s.data := by
    simp only [canonicalUrlL]
    rw [h1]
    rw [if_neg (ne_true_of_eq_false (occursL_eq_false "://".data s.data ':' (by decide) hcolon))]
    rw [parseHttpUrl_bare s.data hnil hforb]
    show stripOnceL "www.".data (jsLowerL (jsLowerL s.data)) = s.data
    rw [hlow, hlow]
    unfold stripOnceL
    rw [if_neg (ne_true_of_eq_false hwww)]
  show (⟨canonicalUrlL s.data⟩ : String) = s
  rw [hcore]

theorem collapseSlashes_single (seg : List Char) (h : '/' ∉ seg) :
    collapseSlashesL ('/' :: seg) = '/' :: seg := by
  cases seg with
  | nil => rfl
  | cons b cs =>
    show (if '/' == '/' && b == '/' then collapseSlashesL (b :: cs)
      else '/' :: collapseSlashesL (b :: cs)) = '/' :: b :: cs
    have hb : (b == '/') = false := beq_eq_false_iff_ne.mpr
      (fun he => h (he ▸ List.mem_cons_self b cs))
    rw [hb, Bool.and_false, if_neg Bool.false_ne_true,
      collapseSlashesL_no_slash (b :: cs) h]

theorem parseHttpUrl_fb (seg : List Char)
    (hq : '?' ∉ seg) (hh : '#' ∉ seg) (hb : '\\' ∉ seg) :
    parseHttpUrlL ("https://".data ++ ("facebook.com".data ++ ('/' :: seg)))
      = some ⟨⟨"facebook.com".data⟩, ⟨'/' :: seg⟩⟩ := by
  have hstart : startsWithCIL ("https://".data ++ ("facebook.com".data ++ ('/' :: seg)))
      "https://".data = true := by
    unfold startsWithCIL jsLowerL
    rw [List.map_append, show "https://".data.map jsCharLower = "https://".data from by decide]
    exact List.isPrefixOf_iff_prefix.mpr (List.prefix_append _ _)
  have hdrop : ("https://".data ++ ("facebook.com".data ++ ('/' :: seg))).drop 8
      = "facebook.com".data ++ ('/' :: seg) := by
    rw [show (8 : ℕ) = "https://".data.length from rfl, List.drop_left]
  have hauth : ("facebook.com".data ++ ('/' :: seg)).takeWhile (fun c => !(authTermChar c))
      = "facebook.com".data := by
    rw [takeWhile_append_all _ _ _ (by decide)]
    rw [show ('/' :: seg).takeWhile (fun c => !(authTermChar c)) = [] from rfl, List.append_nil]
  have hdropw : ("facebook.com".data ++ ('/' :: seg)).dropWhile (fun c => !(authTermChar c))
      = '/' :: seg := by
    rw [dropWhile_append_all _ _ _ (by decide)]
    rfl
  have hpath : ('/' :: seg).takeWhile (fun c => c != '?' && c != '#') = '/' :: seg :=
    takeWhile_all _ _ (by
      intro c hc
      rcases List.mem_cons.mp hc with rfl | hm
      · decide
      · have h1 : c ≠ '?' := fun he => hq (he ▸ hm)
        have h2 : c ≠ '#' := fun he => hh (he ▸ hm)
        simp [h1, h2])
  have hmap : ('/' :: seg).map (fun c => if c == '\\' then '/' else c) = '/' :: seg :=
    map_self_of _ _ (by
      intro c hc
      rcases List.mem_cons.mp hc with rfl | hm
      · rfl
      · have h1 : c ≠ '\\' := fun he => hb (he ▸ hm)
        simp [h1])
  simp only [parseHttpUrlL]
  rw [if_pos hstart, hdrop]
  simp only [hauth, hdropw, hpath, hmap]
  rfl

theorem canonicalFacebook_id_of_safe (s : String) (hsafe : fbHandleSafe s = true) :
    canonicalFacebook s = s := by
  unfold fbHandleSafe at hsafe
  simp only [Bool.and_eq_true, List.all_eq_true] at hsafe
  obtain ⟨hpre, hseg'⟩ := hsafe
  obtain ⟨seg, hs⟩ : ∃ seg, s.data = "facebook.com/".data ++ seg := by
    obtain ⟨t, ht⟩ := List.isPrefixOf_iff_prefix.mp hpre
    exact ⟨t, ht.symm⟩
  have hget : ∀ c ∈ seg, c ≠ '/' ∧ c ≠ '?' ∧ c ≠ '#' ∧ c ≠ '\\' ∧ c ≠ ':' := by
    intro c hc
    have h := hseg' c (by
      rw [hs, show (13 : ℕ) = "facebook.com/".data.length from rfl, List.drop_left]
      exact hc)
    simp only [Bool.and_eq_true, bne_iff_ne] at h
    obtain ⟨⟨⟨⟨h1, h2⟩, h3⟩, h4⟩, h5⟩ := h
    exact ⟨h1, h2, h3, h4, h5⟩
  have hsl : '/' ∉ seg := fun hm => (hget '/' hm).1 rfl
  have hqm : '?' ∉ seg := fun hm => (hget '?' hm).2.1 rfl
  have hhash : '#' ∉ seg := fun hm => (hget '#' hm).2.2.1 rfl
  have hbs : '\\' ∉ seg := fun hm => (hget '\\' hm).2.2.2.1 rfl
  have hcol : ':' ∉ seg := fun hm => (hget ':' hm).2.2.2.2 rfl
  have hcolon_s : ':' ∉ s.data := by
    rw [hs]
    intro hm
    rcases List.mem_append.mp hm with h | h
    · exact absurd h (by decide)
    · exact hcol h
  have hs2 : s.data = "facebook.com".data ++ ('/' :: seg) := by rw [hs]; rfl
  have hcore : canonicalFacebookL s.data = s.data := by
    simp only [canonicalFacebookL]
    rw [if_neg (ne_true_of_eq_false (occursL_eq_false "://".data s.data ':'
      (by decide) hcolon_s))]
    rw [hs2]
    rw [parseHttpUrl_fb seg hqm hhash hbs]
    show "facebook.com/".data ++
        (((splitOnCharL '/' (collapseSlashesL ('/' :: seg))).filter
          (fun x => !x.isEmpty)).headD [])
      = "facebook.com".data ++ ('/' :: seg)
    rw [collapseSlashes_single seg hsl,
      show splitOnCharL '/' ('/' :: seg) = [] :: splitOnCharL '/' seg from rfl,
      splitOnCharL_no_sep '/' seg hsl]
    cases seg with
    | nil => decide
    | cons a as => rfl
  show (⟨canonicalFacebookL s.data⟩ : String) = s
  rw [hcore]

/-- C6 counterexample: canonicalUrl strips only one leading www. per
application, so a doubled www host is not a fixed point after one round; and
canonicalFacebook tests the m. prefix before the www. prefix, so a
www.m.facebook.com input falls back to canonicalUrl on the first round and is
only normalised to a facebook handle on the second. -/
theorem c6_counterexample :
    canonicalUrl (canonicalUrl "www.www.example.com") ≠ canonicalUrl "www.www.example.com" ∧
    canonicalFacebook (canonicalFacebook "www.m.facebook.com/x")
      ≠ canonicalFacebook "www.m.facebook.com/x" := by decide

/-- C6 (amended): canonicalUrl and canonicalFacebook are idempotent on every
input whose first canonical form is clean — a bare legal lower-case host with
no residual www. prefix for canonicalUrl, and a facebook.com/handle string with
a delimiter-free handle segment for canonicalFacebook.  Unguarded idempotence
is refuted by the counterexample. -/
theorem c6_theorem (x y : String)
    (hx : bareHostSafe (canonicalUrl x) = true)
    (hy : fbHandleSafe (canonicalFacebook y) = true) :
    canonicalUrl (canonicalUrl x) = canonicalUrl x ∧
    canonicalFacebook (canonicalFacebook y) = canonicalFacebook y :=
  ⟨canonicalUrl_id_of_safe _ hx, canonicalFacebook_id_of_safe _ hy⟩

theorem c6_witness :
    bareHostSafe (canonicalUrl "https://WWW.Example.com/") = true ∧
    fbHandleSafe (canonicalFacebook "https://m.facebook.com/acme/") = true ∧
    (canonicalUrl (canonicalUrl "https://WWW.Example.com/")
        = canonicalUrl "https://WWW.Example.com/" ∧
      canonicalFacebook (canonicalFacebook "https://m.facebook.com/acme/")
        = canonicalFacebook "https://m.facebook.com/acme/") :=
  ⟨by decide, by decide,
    c6_theorem "https://WWW.Example.com/" "https://m.facebook.com/acme/" (by decide) (by decide)⟩
